import Mathlib

/-!
# Verification of the BatchSnap batch image-to-PDF pipeline

Shallow embedding of the repository's core logic:

* `src/types.ts` — `ConversionStatus`, `FileData`, `ProcessingStats`
* `src/utils/pdfConverter.ts` — `getImageDimensions`, `convertImageToPDF`,
  `createZipFromFiles`
* `src/App.tsx` — `processQueue` (the scheduler loop), `handleDownloadZip`,
  `handleFilesAdded`

Environmental/library pieces that are not part of the repository's sources
(the browser `Image` decoder used as the dimension probe, the `jsPDF`
document backend, the `JSZip` archive object) are modelled from the spec as
noted in their doc comments.  JavaScript `string` ids (UUIDs) are modelled
by `Nat`; byte streams by `List Nat`.  The cooperative single-threaded
concurrency of the browser event loop is modelled by a deterministic
interleaving: within a wave all items are first marked in-progress (the
synchronous prefixes of `processFile` run before any `await` resumes) and
then settle in wave order; the run is represented as the list of the
successive store/stats states produced by each atomic state update.
-/

namespace BatchSnap

/-- `src/types.ts` — `ConversionStatus`.  The spec (§3) names these
`Idle, Queued, InProgress, Done, Failed` respectively. -/
inductive ConversionStatus
  | IDLE
  | QUEUED
  | PROCESSING
  | COMPLETED
  | ERROR
deriving DecidableEq, Repr

/-- A compressed image byte stream (JS `Uint8Array`), one `Nat` per byte. -/
abbrev ImageBytes := List Nat

/-- Modelled from the spec: the source byte handle (a JS `File`) together
with the oracle facts the environment provides about it — its pixel
dimensions and whether the browser can decode it (§4.2 step 1, `ProbeError`)
and whether the document backend can embed its stream without re-encoding
(§4.2 step 3, `EncodingError`).  The actual decoding code lives in the
browser and in jsPDF, not in `src/`. -/
structure SourceFile where
  name : String
  bytes : ImageBytes
  width : Nat
  height : Nat
  decodable : Bool
  embeddable : Bool
deriving DecidableEq, Repr

/-- Spec §7 error kinds for the Converter. -/
inductive ConvError
  | ProbeError
  | EncodingError
deriving DecidableEq, Repr

/-- Page orientation; the source passes the strings `'l'` / `'p'` to jsPDF. -/
inductive Orientation
  | landscape
  | portrait
deriving DecidableEq, Repr

/-- An image resource embedded in a PDF page: the stored compressed stream
and its placement rectangle. -/
structure EmbeddedImage where
  stream : ImageBytes
  x : Nat
  y : Nat
  w : Nat
  h : Nat
deriving DecidableEq, Repr

/-- Modelled from the spec: the jsPDF single-page document object (the jsPDF
library is not in `src/`).  It records the page size, the requested
orientation and the list of embedded image resources. -/
structure JsPDFDoc where
  pageWidth : Nat
  pageHeight : Nat
  orientation : Orientation
  images : List EmbeddedImage
deriving DecidableEq, Repr

/-- `pdf.output('blob')` serialises the document; extracting the embedded
image stream from the blob recovers `images`.  We identify the blob with
the document it serialises. -/
abbrev PDFBlob := JsPDFDoc

/-- Modelled from the spec: the jsPDF constructor
`new jsPDF({orientation, unit: 'px', format: [width, height], ...})`.
The library normalises the page so that a landscape page is at least as
wide as high and a portrait page at least as high as wide, swapping the two
format entries when they disagree with the requested orientation. -/
def jsPDFNew (o : Orientation) (format : Nat × Nat) : JsPDFDoc :=
  match o with
  | .landscape =>
      if format.2 > format.1 then
        { pageWidth := format.2, pageHeight := format.1, orientation := o, images := [] }
      else
        { pageWidth := format.1, pageHeight := format.2, orientation := o, images := [] }
  | .portrait =>
      if format.1 > format.2 then
        { pageWidth := format.2, pageHeight := format.1, orientation := o, images := [] }
      else
        { pageWidth := format.1, pageHeight := format.2, orientation := o, images := [] }

/-- Modelled from the spec: `pdf.addImage(uint8Array, 'JPEG', x, y, w, h,
undefined, 'FAST')` (jsPDF is not in `src/`).  With a raw byte array,
format `'JPEG'` and compression `'FAST'`, jsPDF embeds the given stream
unchanged (§4.2 step 3); it fails with `EncodingError` when the backend
cannot embed the stream without alteration.  The `data` argument carries
the raw bytes together with their embeddability oracle. -/
def addImage (pdf : JsPDFDoc) (data : SourceFile) (x y w h : Nat) :
    Except ConvError JsPDFDoc :=
  if data.embeddable then
    .ok { pdf with images := pdf.images ++ [{ stream := data.bytes, x := x, y := y, w := w, h := h }] }
  else
    .error .EncodingError

/-- `src/types.ts` — `FileData`.  `id` is a UUID string, modelled by `Nat`;
`file` is the JS `File`; `previewUrl` the object URL created for the
thumbnail (it references the same bytes as `file`). -/
structure FileData where
  id : Nat
  file : SourceFile
  previewUrl : String
  status : ConversionStatus
  pdfBlob : Option PDFBlob := none
  error : Option String := none
  width : Option Nat := none
  height : Option Nat := none
deriving DecidableEq, Repr

/-- `src/utils/pdfConverter.ts` — `getImageDimensions`.  Modelled from the
spec for the browser part: the function loads the object URL into an
`Image` element and resolves with its natural width/height, rejecting when
the bytes are not a decodable image (§4.2 step 1, `ProbeError`).  The
object URL references `file`'s bytes, so the probe is a function of the
source file. -/
def getImageDimensions (img : SourceFile) : Except ConvError (Nat × Nat) :=
  if img.decodable then .ok (img.width, img.height) else .error .ProbeError

/-- `src/utils/pdfConverter.ts` — `convertImageToPDF`: probe the
dimensions, create a jsPDF document with exact pixel format and orientation
`'l'` when `width > height` else `'p'`, embed the raw byte stream at the
origin covering the whole page, and serialise.  Any error is re-thrown to
the caller. -/
def convertImageToPDF (fileData : FileData) : Except ConvError PDFBlob :=
  match getImageDimensions fileData.file with
  | .error e => .error e
  | .ok (width, height) =>
    let orientation := if width > height then Orientation.landscape else Orientation.portrait
    let pdf := jsPDFNew orientation (width, height)
    addImage pdf fileData.file 0 0 width height

/-- The archive produced by the Packager: a single nested folder holding
named document entries.  JSZip's `folder.file(name, blob)` keeps one entry
per name (a later write to the same name replaces the earlier one), so
`entries` has pairwise distinct names by construction. -/
structure ZipFolder where
  name : String
  entries : List (String × PDFBlob)
deriving DecidableEq, Repr

/-- Modelled from the spec: JSZip's `folder.file(name, blob)` — insert the
entry, replacing an existing entry of the same name (last writer wins). -/
def zipSetFile (entries : List (String × PDFBlob)) (n : String) (b : PDFBlob) :
    List (String × PDFBlob) :=
  if entries.any (fun e => e.1 = n) then
    entries.map (fun e => if e.1 = n then (n, b) else e)
  else
    entries ++ [(n, b)]

/-- The name transform `file.file.name.replace(/\.[^/.]+$/, "") + ".pdf"`:
drop a final `.ext` segment (a dot followed by at least one character, none
of which is a dot or a slash) when present, then append `".pdf"`. -/
def pdfFileName (n : String) : String :=
  let rev := n.data.reverse
  let ext := rev.takeWhile (fun c => c ≠ '.' && c ≠ '/')
  let rest := rev.dropWhile (fun c => c ≠ '.' && c ≠ '/')
  let stripped :=
    match rest with
    | '.' :: rest' => if ext.isEmpty then n else String.mk rest'.reverse
    | _ => n
  stripped ++ ".pdf"

/-- `src/utils/pdfConverter.ts` — `createZipFromFiles`: place, under the
single folder `"converted_pdfs"`, one entry per input item that has a
present `pdfBlob`, named by `pdfFileName`; items without a blob are
skipped. -/
def createZipFromFiles (files : List FileData) : ZipFolder :=
  { name := "converted_pdfs",
    entries := files.foldl
      (fun acc file =>
        match file.pdfBlob with
        | some blob => zipSetFile acc (pdfFileName file.file.name) blob
        | none => acc)
      [] }

/-- `src/types.ts` — `ProcessingStats`.  `Date.now()` values are abstract
`Nat` clock readings supplied as parameters to the run. -/
structure ProcessingStats where
  total : Nat
  processed : Nat
  success : Nat
  failed : Nat
  startTime : Option Nat
  endTime : Option Nat
deriving DecidableEq, Repr

/-- The React component state of `src/App.tsx` that the scheduler touches:
the `files` store, the `stats` aggregate and the `isProcessing` flag. -/
structure AppState where
  files : List FileData
  stats : ProcessingStats
  isProcessing : Bool
deriving DecidableEq, Repr

/-- The eligibility filter of `processQueue`:
`f.status === IDLE || f.status === ERROR`. -/
def isEligible (f : FileData) : Bool :=
  f.status = ConversionStatus.IDLE || f.status = ConversionStatus.ERROR

/-- The bulk transition of `processQueue`: mark every `IDLE` item
`QUEUED`, leaving all other items untouched. -/
def markIdleQueued (files : List FileData) : List FileData :=
  files.map fun f =>
    if f.status = ConversionStatus.IDLE then { f with status := .QUEUED } else f

/-- `updateFileStatus` of `processQueue`: apply the update to every store
item whose `id` matches. -/
def updateFileStatus (files : List FileData) (i : Nat) (upd : FileData → FileData) :
    List FileData :=
  files.map fun f => if f.id = i then upd f else f

/-- The store update performed when `processFile` settles: on success set
`status := COMPLETED` and store the blob; on failure set `status := ERROR`
and the message `"Failed to convert"`.  The object spread leaves all other
fields (in particular a stale `error` or `pdfBlob`) unchanged. -/
def settleUpdate (r : Except ConvError PDFBlob) (f : FileData) : FileData :=
  match r with
  | .ok blob => { f with status := .COMPLETED, pdfBlob := some blob }
  | .error _ => { f with status := .ERROR, error := some "Failed to convert" }

/-- The stats update performed when `processFile` settles: increment
`processed` and exactly one of `success` / `failed`. -/
def settleStats (st : ProcessingStats) (r : Except ConvError PDFBlob) : ProcessingStats :=
  match r with
  | .ok _ => { st with processed := st.processed + 1, success := st.success + 1 }
  | .error _ => { st with processed := st.processed + 1, failed := st.failed + 1 }

/-- The atomic store update `updateFileStatus(file.id, { status:
PROCESSING })` at the head of `processFile`. -/
def markFileState (s : AppState) (f : FileData) : AppState :=
  { s with files := updateFileStatus s.files f.id (fun g => { g with status := .PROCESSING }) }

/-- The atomic store update performed when `processFile`'s conversion of
`f` settles. -/
def settleFileState (s : AppState) (f : FileData) : AppState :=
  { s with files := updateFileStatus s.files f.id (settleUpdate (convertImageToPDF f)) }

/-- The atomic stats update performed when `processFile`'s conversion of
`f` settles. -/
def settleStatsState (s : AppState) (f : FileData) : AppState :=
  { s with stats := settleStats s.stats (convertImageToPDF f) }

/-- The synchronous prefixes of `processFile` for a wave: each member is
marked `PROCESSING` (one store update per member, all before any member
settles, since `Promise.all(batch.map(processFile))` runs each call up to
its first `await` before any conversion resolves).  Returns the
intermediate states and the state after the whole phase. -/
def markRun (s : AppState) : List FileData → List AppState × AppState
  | [] => ([], s)
  | f :: rest =>
    let p := markRun (markFileState s f) rest
    (markFileState s f :: p.1, p.2)

/-- The settlement phase of a wave: each member's conversion resolves and
`processFile` performs its two atomic updates — the store update
(`updateFileStatus`) and the stats update (`setStats`).  The conversion is
applied to the queue snapshot captured at dispatch, the store update is
addressed by `id`. -/
def settleRun (s : AppState) : List FileData → List AppState × AppState
  | [] => ([], s)
  | f :: rest =>
    let p := settleRun (settleStatsState (settleFileState s f) f) rest
    (settleFileState s f :: settleStatsState (settleFileState s f) f :: p.1, p.2)

/-- The wave loop of `processQueue`: for each batch, mark all members, wait
for all of them to settle, then continue with the next batch. -/
def wavesRun (s : AppState) : List (List FileData) → List AppState × AppState
  | [] => ([], s)
  | w :: ws =>
    let m := markRun s w
    let t := settleRun m.2 w
    let rest := wavesRun t.2 ws
    (m.1 ++ t.1 ++ rest.1, rest.2)

/-- `const BATCH_SIZE = 5` — the parallel-processing limit `K`. -/
def BATCH_SIZE : Nat := 5

/-- `queue.slice(i, i + BATCH_SIZE)` iterated over the whole queue:
partition a list into consecutive chunks of size at most `K`.  The fuel
argument (instantiated with the list length) makes the recursion
structural; one chunk is produced per iteration of the source's `for`
loop. -/
def chunksAux (K : Nat) : Nat → List FileData → List (List FileData)
  | 0, _ => []
  | fuel + 1, l => if l.isEmpty then [] else l.take K :: chunksAux K fuel (l.drop K)

/-- The wave partition of the queue. -/
def chunks (K : Nat) (l : List FileData) : List (List FileData) :=
  chunksAux K l.length l

/-- `setIsProcessing(true)`. -/
def processingOnState (s : AppState) : AppState := { s with isProcessing := true }

/-- The `setStats` at run start: `total` becomes the length of the WHOLE
store, `processed` is reset to `0`, `startTime` is stamped; `success` and
`failed` are NOT reset (the spread keeps them). -/
def statsInitState (startT : Nat) (s : AppState) : AppState :=
  { s with stats :=
      { s.stats with total := s.files.length, processed := 0, startTime := some startT } }

/-- The bulk `setFiles` marking every `IDLE` item `QUEUED`. -/
def queuedState (s : AppState) : AppState := { s with files := markIdleQueued s.files }

/-- The `setStats` at run end stamping `endTime`. -/
def statsEndState (endT : Nat) (s : AppState) : AppState :=
  { s with stats := { s.stats with endTime := some endT } }

/-- `setIsProcessing(false)`. -/
def processingOffState (s : AppState) : AppState := { s with isProcessing := false }

/-- `src/App.tsx` — `processQueue`, as the sequence of atomic state
updates it performs: set `isProcessing`; initialise the stats; bulk-mark
`IDLE` items `QUEUED`; compute the queue from the `files` snapshot
captured by the closure; run the waves; set `endTime`; clear
`isProcessing`.  `startT`/`endT` stand for the two `Date.now()` readings.
Returns the trace of intermediate states and the final state. -/
def processQueueRun (startT endT : Nat) (s : AppState) : List AppState × AppState :=
  let sC := queuedState (statsInitState startT (processingOnState s))
  let queue := s.files.filter isEligible
  let run := wavesRun sC (chunks BATCH_SIZE queue)
  let sE := processingOffState (statsEndState endT run.2)
  (processingOnState s :: statsInitState startT (processingOnState s) :: sC ::
    (run.1 ++ [statsEndState endT run.2, sE]), sE)

/-- Observable scheduler events of one run: an item transitioning to
`PROCESSING`, an item settling (`true` = `COMPLETED`, `false` = `ERROR`),
and the inter-wave `setTimeout(resolve, 50)` yield. -/
inductive RunEvent
  | mark (i : Nat)
  | settle (i : Nat) (ok : Bool)
  | delay (ms : Nat)
deriving DecidableEq, Repr

/-- Whether an event is a settlement. -/
def RunEvent.isSettle : RunEvent → Bool
  | .settle _ _ => true
  | _ => false

/-- The events of one wave: all marks, then all settlements, then the
inter-wave delay. -/
def waveEvents (w : List FileData) : List RunEvent :=
  (w.map fun f => RunEvent.mark f.id)
    ++ (w.map fun f => RunEvent.settle f.id (convertImageToPDF f).isOk)
    ++ [RunEvent.delay 50]

/-- The event stream of a whole run of `processQueue`. -/
def runEvents (s : AppState) : List RunEvent :=
  ((chunks BATCH_SIZE (s.files.filter isEligible)).map waveEvents).flatten

/-- `src/App.tsx` — `handleFilesAdded`: append one fresh `IDLE` item per
dropped file (each given id and preview URL), with no blob, error or
dimensions. -/
def mkFileData (nf : Nat × String × SourceFile) : FileData :=
  { id := nf.1, file := nf.2.2, previewUrl := nf.2.1, status := .IDLE }

/-- Append the freshly created items to the store. -/
def handleFilesAdded (files : List FileData) (newFiles : List (Nat × String × SourceFile)) :
    List FileData :=
  files ++ newFiles.map mkFileData

/-- The `setFiles` performed by `handleFilesAdded`. -/
def addFilesState (s : AppState) (newFiles : List (Nat × String × SourceFile)) : AppState :=
  { s with files := handleFilesAdded s.files newFiles }

/-- A run during which `handleFilesAdded` fires after the `k`-th wave:
identical to `processQueueRun` except that the store grows mid-run.  The
queue and waves are still computed from the snapshot captured at run
start, exactly as in the source (the closure over `files`). -/
def processQueueRunWithAdd (startT endT : Nat) (s : AppState) (k : Nat)
    (newFiles : List (Nat × String × SourceFile)) : List AppState × AppState :=
  let sC := queuedState (statsInitState startT (processingOnState s))
  let waves := chunks BATCH_SIZE (s.files.filter isEligible)
  let run1 := wavesRun sC (waves.take k)
  let sAdd := addFilesState run1.2 newFiles
  let run2 := wavesRun sAdd (waves.drop k)
  let sE := processingOffState (statsEndState endT run2.2)
  (processingOnState s :: statsInitState startT (processingOnState s) :: sC ::
    (run1.1 ++ sAdd :: run2.1 ++ [statsEndState endT run2.2, sE]), sE)

/-- The outcome of the download action: the early return when no item is
completed, a saved archive, or the alert shown when archive generation
fails. -/
inductive DownloadOutcome
  | noAction
  | saved (name : String) (zip : ZipFolder)
  | alerted (msg : String)
deriving DecidableEq, Repr

/-- Spec §7: the Packager's error kind. -/
inductive ArchiveError
  | generateFailure
deriving DecidableEq, Repr

/-- `src/App.tsx` — `handleDownloadZip`, parameterised by the archive
generator so that the `catch` branch (a `JSZip.generateAsync` rejection)
is representable: filter the completed items with a present blob, return
early when there are none, otherwise save the generated archive as
`"converted_pdfs.zip"`, alerting on failure. -/
def handleDownloadZipWith (pack : List FileData → Except ArchiveError ZipFolder)
    (files : List FileData) : DownloadOutcome :=
  let completedFiles := files.filter fun f =>
    f.status = ConversionStatus.COMPLETED && f.pdfBlob.isSome
  if completedFiles.length = 0 then .noAction
  else
    match pack completedFiles with
    | .ok zipBlob => .saved "converted_pdfs.zip" zipBlob
    | .error _ => .alerted "Failed to create ZIP file."

/-- `handleDownloadZip` with the actual (non-failing) archive generator. -/
def handleDownloadZip (files : List FileData) : DownloadOutcome :=
  handleDownloadZipWith (fun fs => .ok (createZipFromFiles fs)) files

/-! ## Basic lemmas about the wave partition -/

theorem chunksAux_flatten (K : Nat) (hK : K ≠ 0) :
    ∀ (fuel : Nat) (l : List FileData), l.length ≤ fuel →
      (chunksAux K fuel l).flatten = l := by
  intro fuel
  induction fuel with
  | zero =>
    intro l hl
    have : l = [] := List.eq_nil_of_length_eq_zero (Nat.le_zero.mp hl)
    subst this
    rfl
  | succ n ih =>
    intro l hl
    by_cases he : l = []
    · subst he; rfl
    · have hne : l.isEmpty = false := List.isEmpty_eq_false.mpr he
      have hlen : (l.drop K).length ≤ n := by
        rw [List.length_drop]
        have h1 : 1 ≤ l.length := by
          cases l with
          | nil => exact absurd rfl he
          | cons a t => exact Nat.succ_le_succ (Nat.zero_le _)
        have h2 : 1 ≤ K := Nat.one_le_iff_ne_zero.mpr hK
        omega
      simp only [chunksAux, hne, Bool.false_eq_true, if_false, List.flatten_cons]
      rw [ih (l.drop K) hlen, List.take_append_drop]

theorem chunks_flatten (K : Nat) (hK : K ≠ 0) (l : List FileData) :
    (chunks K l).flatten = l :=
  chunksAux_flatten K hK l.length l (Nat.le_refl _)

theorem chunksAux_length_le (K : Nat) :
    ∀ (fuel : Nat) (l : List FileData), ∀ w ∈ chunksAux K fuel l, w.length ≤ K := by
  intro fuel
  induction fuel with
  | zero => intro l w hw; cases hw
  | succ n ih =>
    intro l w hw
    by_cases he : l.isEmpty
    · simp only [chunksAux, he, if_true] at hw
      cases hw
    · simp only [chunksAux, he, Bool.false_eq_true, if_false, List.mem_cons] at hw
      cases hw with
      | inl h => subst h; simp [List.length_take_le]
      | inr h => exact ih (l.drop K) w h

theorem chunks_length_le (K : Nat) (l : List FileData) :
    ∀ w ∈ chunks K l, w.length ≤ K :=
  chunksAux_length_le K l.length l

/-- Twelve queued items are partitioned into exactly three waves of sizes
5, 5 and 2. -/
theorem chunks_sizes_twelve (l : List FileData) (h : l.length = 12) :
    (chunks BATCH_SIZE l).map List.length = [5, 5, 2] := by
  have hne : l ≠ [] := by intro e; subst e; simp at h
  have h5 : (l.drop 5).length = 7 := by rw [List.length_drop, h]
  have hne5 : l.drop 5 ≠ [] := by
    intro e
    rw [e] at h5
    simp at h5
  have h10 : ((l.drop 5).drop 5).length = 2 := by rw [List.length_drop, h5]
  have hne10 : (l.drop 5).drop 5 ≠ [] := by
    intro e
    rw [e] at h10
    simp at h10
  have h15 : (((l.drop 5).drop 5).drop 5).length = 0 := by
    rw [List.length_drop, h10]
  have he15 : ((l.drop 5).drop 5).drop 5 = [] := List.eq_nil_of_length_eq_zero h15
  show (chunksAux 5 l.length l).map List.length = [5, 5, 2]
  rw [h]
  simp only [chunksAux, List.isEmpty_eq_false.mpr hne, List.isEmpty_eq_false.mpr hne5,
    List.isEmpty_eq_false.mpr hne10, he15, List.isEmpty_nil, Bool.false_eq_true, if_false,
    if_true, List.map_cons, List.map_nil]
  rw [List.length_take, List.length_take, List.length_take, h, h5, h10]
  decide

/-! ## Pointwise lemmas about the store updates -/

theorem mem_updateFileStatus_of_ne {l : List FileData} {g : FileData} (hg : g ∈ l)
    {i : Nat} (hne : g.id ≠ i) (u : FileData → FileData) :
    g ∈ updateFileStatus l i u := by
  have : (if g.id = i then u g else g) ∈ updateFileStatus l i u :=
    List.mem_map_of_mem _ hg
  rwa [if_neg hne] at this

theorem mem_updateFileStatus_self {l : List FileData} {g : FileData} (hg : g ∈ l)
    {i : Nat} (heq : g.id = i) (u : FileData → FileData) :
    u g ∈ updateFileStatus l i u := by
  have : (if g.id = i then u g else g) ∈ updateFileStatus l i u :=
    List.mem_map_of_mem _ hg
  rwa [if_pos heq] at this

theorem of_mem_updateFileStatus {l : List FileData} {g' : FileData} {i : Nat}
    {u : FileData → FileData} (h : g' ∈ updateFileStatus l i u) :
    ∃ g ∈ l, (g.id = i ∧ g' = u g) ∨ (g.id ≠ i ∧ g' = g) := by
  obtain ⟨g, hg, he⟩ := List.mem_map.mp h
  refine ⟨g, hg, ?_⟩
  by_cases hid : g.id = i
  · exact Or.inl ⟨hid, by rw [← he, if_pos hid]⟩
  · exact Or.inr ⟨hid, by rw [← he, if_neg hid]⟩

theorem updateFileStatus_map_id {l : List FileData} {i : Nat} {u : FileData → FileData}
    (hu : ∀ f, (u f).id = f.id) :
    (updateFileStatus l i u).map FileData.id = l.map FileData.id := by
  unfold updateFileStatus
  rw [List.map_map]
  apply List.map_congr_left
  intro f _
  by_cases hid : f.id = i
  · simp [hid, hu]
  · simp [hid]

theorem mem_markIdleQueued_of_ne {l : List FileData} {g : FileData} (hg : g ∈ l)
    (hne : g.status ≠ ConversionStatus.IDLE) : g ∈ markIdleQueued l := by
  have : (if g.status = ConversionStatus.IDLE then { g with status := .QUEUED } else g)
      ∈ markIdleQueued l := List.mem_map_of_mem _ hg
  rwa [if_neg hne] at this

theorem mem_markIdleQueued_of_idle {l : List FileData} {g : FileData} (hg : g ∈ l)
    (hi : g.status = ConversionStatus.IDLE) :
    { g with status := ConversionStatus.QUEUED } ∈ markIdleQueued l := by
  have : (if g.status = ConversionStatus.IDLE then { g with status := .QUEUED } else g)
      ∈ markIdleQueued l := List.mem_map_of_mem _ hg
  rwa [if_pos hi] at this

theorem of_mem_markIdleQueued {l : List FileData} {g' : FileData}
    (h : g' ∈ markIdleQueued l) :
    ∃ g ∈ l, (g.status = ConversionStatus.IDLE ∧ g' = { g with status := .QUEUED }) ∨
      (g.status ≠ ConversionStatus.IDLE ∧ g' = g) := by
  obtain ⟨g, hg, he⟩ := List.mem_map.mp h
  refine ⟨g, hg, ?_⟩
  by_cases hi : g.status = ConversionStatus.IDLE
  · exact Or.inl ⟨hi, by rw [← he, if_pos hi]⟩
  · exact Or.inr ⟨hi, by rw [← he, if_neg hi]⟩

theorem markIdleQueued_map_id (l : List FileData) :
    (markIdleQueued l).map FileData.id = l.map FileData.id := by
  unfold markIdleQueued
  rw [List.map_map]
  apply List.map_congr_left
  intro f _
  by_cases hi : f.status = ConversionStatus.IDLE
  · simp [hi]
  · simp [hi]

/-! ## Stats lemmas -/

/-- Whether the conversion of an item succeeds. -/
def convOk (f : FileData) : Bool := (convertImageToPDF f).isOk

/-- Number of items of a list whose conversion succeeds. -/
def nSuccess (w : List FileData) : Nat := w.countP (fun f => convOk f)

/-- Number of items of a list whose conversion fails. -/
def nFailed (w : List FileData) : Nat := w.countP (fun f => !convOk f)

theorem nSuccess_add_nFailed (w : List FileData) :
    nSuccess w + nFailed w = w.length := by
  unfold nSuccess nFailed
  induction w with
  | nil => rfl
  | cons f rest ih =>
    rw [List.countP_cons, List.countP_cons]
    cases h : convOk f <;> simp [h] <;> omega

theorem nSuccess_append (v w : List FileData) :
    nSuccess (v ++ w) = nSuccess v + nSuccess w := List.countP_append _ _ _

theorem nFailed_append (v w : List FileData) :
    nFailed (v ++ w) = nFailed v + nFailed w := List.countP_append _ _ _

theorem markFileState_stats (s : AppState) (f : FileData) :
    (markFileState s f).stats = s.stats := rfl

theorem settleFileState_stats (s : AppState) (f : FileData) :
    (settleFileState s f).stats = s.stats := rfl

theorem settleStatsState_stats (s : AppState) (f : FileData) :
    (settleStatsState s f).stats = settleStats s.stats (convertImageToPDF f) := rfl

theorem settleStats_total (st : ProcessingStats) (r : Except ConvError PDFBlob) :
    (settleStats st r).total = st.total := by cases r <;> rfl

theorem settleStats_processed (st : ProcessingStats) (r : Except ConvError PDFBlob) :
    (settleStats st r).processed = st.processed + 1 := by cases r <;> rfl

theorem settleStats_success (st : ProcessingStats) (r : Except ConvError PDFBlob) :
    (settleStats st r).success = st.success + (if r.isOk then 1 else 0) := by cases r <;> rfl

theorem settleStats_failed (st : ProcessingStats) (r : Except ConvError PDFBlob) :
    (settleStats st r).failed = st.failed + (if r.isOk then 0 else 1) := by cases r <;> rfl

theorem settleStats_startTime (st : ProcessingStats) (r : Except ConvError PDFBlob) :
    (settleStats st r).startTime = st.startTime := by cases r <;> rfl

theorem settleStats_endTime (st : ProcessingStats) (r : Except ConvError PDFBlob) :
    (settleStats st r).endTime = st.endTime := by cases r <;> rfl

/-- Marking a wave in-progress does not touch the stats. -/
theorem markRun_stats : ∀ (w : List FileData) (s : AppState),
    (markRun s w).2.stats = s.stats ∧ ∀ st ∈ (markRun s w).1, st.stats = s.stats := by
  intro w
  induction w with
  | nil => intro s; exact ⟨rfl, by intro st h; cases h⟩
  | cons f rest ih =>
    intro s
    constructor
    · exact ((ih (markFileState s f)).1).trans (markFileState_stats s f)
    · intro st hst
      rcases List.mem_cons.mp hst with h | h
      · subst h; rfl
      · exact ((ih (markFileState s f)).2 st h).trans (markFileState_stats s f)

/-- The stats after a wave settles: `processed` grows by the wave length,
`success`/`failed` by the number of successful/failed conversions in the
wave; `total` and the timing fields are untouched. -/
theorem settleRun_final_stats : ∀ (w : List FileData) (s : AppState),
    (settleRun s w).2.stats =
      { total := s.stats.total,
        processed := s.stats.processed + w.length,
        success := s.stats.success + nSuccess w,
        failed := s.stats.failed + nFailed w,
        startTime := s.stats.startTime,
        endTime := s.stats.endTime } := by
  intro w
  induction w with
  | nil => intro s; simp [settleRun, nSuccess, nFailed]
  | cons f rest ih =>
    intro s
    show (settleRun (settleStatsState (settleFileState s f) f) rest).2.stats = _
    rw [ih]
    have hs : (settleStatsState (settleFileState s f) f).stats =
        settleStats s.stats (convertImageToPDF f) := rfl
    rw [hs]
    have hcS : nSuccess (f :: rest) =
        (if convOk f then 1 else 0) + nSuccess rest := by
      unfold nSuccess
      rw [List.countP_cons]
      cases h : convOk f <;> simp [h] <;> omega
    have hcF : nFailed (f :: rest) =
        (if convOk f then 0 else 1) + nFailed rest := by
      unfold nFailed
      rw [List.countP_cons]
      cases h : convOk f <;> simp [h] <;> omega
    have hok : convOk f = (convertImageToPDF f).isOk := rfl
    rw [settleStats_total, settleStats_processed, settleStats_success, settleStats_failed,
      settleStats_startTime, settleStats_endTime, hcS, hcF, hok]
    cases h : (convertImageToPDF f).isOk <;>
      simp [ProcessingStats.mk.injEq] <;> omega

/-- Final stats of the whole wave loop. -/
theorem wavesRun_final_stats : ∀ (ws : List (List FileData)) (s : AppState),
    (wavesRun s ws).2.stats =
      { total := s.stats.total,
        processed := s.stats.processed + ws.flatten.length,
        success := s.stats.success + nSuccess ws.flatten,
        failed := s.stats.failed + nFailed ws.flatten,
        startTime := s.stats.startTime,
        endTime := s.stats.endTime } := by
  intro ws
  induction ws with
  | nil => intro s; simp [wavesRun, nSuccess, nFailed]
  | cons w rest ih =>
    intro s
    show (wavesRun (settleRun (markRun s w).2 w).2 rest).2.stats = _
    rw [ih, settleRun_final_stats, (markRun_stats w s).1]
    simp [List.flatten_cons, List.length_append, nSuccess_append, nFailed_append,
      ProcessingStats.mk.injEq] <;> omega

/-- The running-stats invariant along the settlement phase of one wave. -/
theorem settleRun_trace_stats : ∀ (w : List FileData) (s : AppState),
    s.stats.processed = s.stats.success + s.stats.failed →
    s.stats.processed + w.length ≤ s.stats.total →
    ∀ st ∈ (settleRun s w).1,
      st.stats.processed = st.stats.success + st.stats.failed ∧
      st.stats.processed ≤ st.stats.total ∧
      st.stats.total = s.stats.total := by
  intro w
  induction w with
  | nil => intro s _ _ st hst; cases hst
  | cons f rest ih =>
    intro s hinv hb st hst
    simp only [List.length_cons] at hb
    rcases List.mem_cons.mp hst with h | h
    · subst h
      simp only [settleFileState_stats]
      exact ⟨hinv, by omega, trivial⟩
    rcases List.mem_cons.mp h with h' | h'
    · subst h'
      simp only [settleStatsState_stats, settleFileState_stats, settleStats_processed,
        settleStats_total, settleStats_success, settleStats_failed]
      refine ⟨?_, by omega, trivial⟩
      cases (convertImageToPDF f).isOk <;> simp <;> omega
    · have := ih (settleStatsState (settleFileState s f) f)
        (by simp only [settleStatsState_stats, settleFileState_stats, settleStats_processed,
              settleStats_success, settleStats_failed]
            cases (convertImageToPDF f).isOk <;> simp <;> omega)
        (by simp only [settleStatsState_stats, settleFileState_stats, settleStats_processed,
              settleStats_total]
            omega) st h'
      simp only [settleStatsState_stats, settleFileState_stats, settleStats_total] at this
      exact this

/-- The running-stats invariant along the whole wave loop. -/
theorem wavesRun_trace_stats : ∀ (ws : List (List FileData)) (s : AppState),
    s.stats.processed = s.stats.success + s.stats.failed →
    s.stats.processed + ws.flatten.length ≤ s.stats.total →
    ∀ st ∈ (wavesRun s ws).1,
      st.stats.processed = st.stats.success + st.stats.failed ∧
      st.stats.processed ≤ st.stats.total ∧
      st.stats.total = s.stats.total := by
  intro ws
  induction ws with
  | nil => intro s _ _ st hst; cases hst
  | cons w rest ih =>
    intro s hinv hb st hst
    simp only [List.flatten_cons, List.length_append] at hb
    simp only [wavesRun, List.mem_append] at hst
    have hms : (markRun s w).2.stats = s.stats := (markRun_stats w s).1
    have hts : (settleRun (markRun s w).2 w).2.stats =
        { total := s.stats.total,
          processed := s.stats.processed + w.length,
          success := s.stats.success + nSuccess w,
          failed := s.stats.failed + nFailed w,
          startTime := s.stats.startTime,
          endTime := s.stats.endTime } := by
      rw [settleRun_final_stats, hms]
    have hlen := nSuccess_add_nFailed w
    rcases hst with (h | h) | h
    · have := (markRun_stats w s).2 st h
      rw [this]
      exact ⟨hinv, by omega, rfl⟩
    · have := settleRun_trace_stats w (markRun s w).2
        (by rw [hms]; exact hinv) (by rw [hms]; omega) st h
      rwa [hms] at this
    · have := ih (settleRun (markRun s w).2 w).2
        (by rw [hts]; dsimp only; omega) (by rw [hts]; dsimp only; omega) st h
      rw [hts] at this
      dsimp only at this
      exact this

/-! ## Ids, frame and per-item outcome lemmas -/

theorem settleUpdate_id (r : Except ConvError PDFBlob) (f : FileData) :
    (settleUpdate r f).id = f.id := by cases r <;> rfl

theorem markFileState_map_id (s : AppState) (f : FileData) :
    (markFileState s f).files.map FileData.id = s.files.map FileData.id :=
  updateFileStatus_map_id (fun _ => rfl)

theorem settleFileState_map_id (s : AppState) (f : FileData) :
    (settleFileState s f).files.map FileData.id = s.files.map FileData.id :=
  updateFileStatus_map_id (fun g => settleUpdate_id _ g)

theorem settleStatsState_files (s : AppState) (f : FileData) :
    (settleStatsState s f).files = s.files := rfl

theorem markRun_final_map_id : ∀ (w : List FileData) (s : AppState),
    (markRun s w).2.files.map FileData.id = s.files.map FileData.id := by
  intro w
  induction w with
  | nil => intro s; rfl
  | cons f rest ih =>
    intro s
    exact (ih (markFileState s f)).trans (markFileState_map_id s f)

theorem settleRun_final_map_id : ∀ (w : List FileData) (s : AppState),
    (settleRun s w).2.files.map FileData.id = s.files.map FileData.id := by
  intro w
  induction w with
  | nil => intro s; rfl
  | cons f rest ih =>
    intro s
    have h1 : (settleStatsState (settleFileState s f) f).files.map FileData.id =
        s.files.map FileData.id := by
      rw [settleStatsState_files]
      exact settleFileState_map_id s f
    exact (ih (settleStatsState (settleFileState s f) f)).trans h1

theorem wavesRun_final_map_id : ∀ (ws : List (List FileData)) (s : AppState),
    (wavesRun s ws).2.files.map FileData.id = s.files.map FileData.id := by
  intro ws
  induction ws with
  | nil => intro s; rfl
  | cons w rest ih =>
    intro s
    show (wavesRun (settleRun (markRun s w).2 w).2 rest).2.files.map FileData.id = _
    rw [ih, settleRun_final_map_id, markRun_final_map_id]

/-- Marking a wave leaves any item whose id is not in the wave untouched,
in every intermediate state. -/
theorem markRun_frame : ∀ (w : List FileData) (s : AppState) (g : FileData),
    g ∈ s.files → g.id ∉ w.map FileData.id →
    g ∈ (markRun s w).2.files ∧ ∀ st ∈ (markRun s w).1, g ∈ st.files := by
  intro w
  induction w with
  | nil => intro s g hg _; exact ⟨hg, by intro st h; cases h⟩
  | cons f rest ih =>
    intro s g hg hid
    have hne : g.id ≠ f.id := by
      intro e
      apply hid
      rw [List.map_cons, e]
      exact List.mem_cons_self _ _
    have hg1 : g ∈ (markFileState s f).files := mem_updateFileStatus_of_ne hg hne _
    have hrest : g.id ∉ rest.map FileData.id := by
      intro hm
      exact hid (by rw [List.map_cons]; exact List.mem_cons_of_mem _ hm)
    refine ⟨(ih (markFileState s f) g hg1 hrest).1, ?_⟩
    intro st hst
    rcases List.mem_cons.mp hst with h | h
    · subst h; exact hg1
    · exact (ih (markFileState s f) g hg1 hrest).2 st h

/-- Settling a wave leaves any item whose id is not in the wave untouched,
in every intermediate state. -/
theorem settleRun_frame : ∀ (w : List FileData) (s : AppState) (g : FileData),
    g ∈ s.files → g.id ∉ w.map FileData.id →
    g ∈ (settleRun s w).2.files ∧ ∀ st ∈ (settleRun s w).1, g ∈ st.files := by
  intro w
  induction w with
  | nil => intro s g hg _; exact ⟨hg, by intro st h; cases h⟩
  | cons f rest ih =>
    intro s g hg hid
    have hne : g.id ≠ f.id := by
      intro e
      apply hid
      rw [List.map_cons, e]
      exact List.mem_cons_self _ _
    have hg1 : g ∈ (settleFileState s f).files := mem_updateFileStatus_of_ne hg hne _
    have hg2 : g ∈ (settleStatsState (settleFileState s f) f).files := hg1
    have hrest : g.id ∉ rest.map FileData.id := by
      intro hm
      apply hid
      rw [List.map_cons]
      exact List.mem_cons_of_mem _ hm
    refine ⟨(ih _ g hg2 hrest).1, ?_⟩
    intro st hst
    rcases List.mem_cons.mp hst with h | h
    · subst h; exact hg1
    rcases List.mem_cons.mp h with h' | h'
    · subst h'; exact hg2
    · exact (ih _ g hg2 hrest).2 st h'

/-- The wave loop leaves any item whose id is in no wave untouched, in
every intermediate state. -/
theorem wavesRun_frame : ∀ (ws : List (List FileData)) (s : AppState) (g : FileData),
    g ∈ s.files → g.id ∉ ws.flatten.map FileData.id →
    g ∈ (wavesRun s ws).2.files ∧ ∀ st ∈ (wavesRun s ws).1, g ∈ st.files := by
  intro ws
  induction ws with
  | nil => intro s g hg _; exact ⟨hg, by intro st h; cases h⟩
  | cons w rest ih =>
    intro s g hg hid
    rw [List.flatten_cons, List.map_append] at hid
    have hw : g.id ∉ w.map FileData.id := fun h => hid (List.mem_append_left _ h)
    have hr : g.id ∉ rest.flatten.map FileData.id := fun h => hid (List.mem_append_right _ h)
    have hm := markRun_frame w s g hg hw
    have hs := settleRun_frame w (markRun s w).2 g hm.1 hw
    have hrec := ih (settleRun (markRun s w).2 w).2 g hs.1 hr
    refine ⟨hrec.1, ?_⟩
    intro st hst
    simp only [wavesRun, List.mem_append] at hst
    rcases hst with (h | h) | h
    · exact hm.2 st h
    · exact hs.2 st h
    · exact hrec.2 st h

/-- Every wave member is `PROCESSING` in some intermediate state of the
marking phase. -/
theorem markRun_processing_state : ∀ (w : List FileData) (s : AppState) (fd : FileData),
    fd ∈ w → fd.id ∈ s.files.map FileData.id →
    ∃ st ∈ (markRun s w).1, ∃ g ∈ st.files,
      g.id = fd.id ∧ g.status = ConversionStatus.PROCESSING := by
  intro w
  induction w with
  | nil => intro s fd h; cases h
  | cons f rest ih =>
    intro s fd hfd hid
    rcases List.mem_cons.mp hfd with h | h
    · subst h
      obtain ⟨g0, hg0, hg0id⟩ := List.mem_map.mp hid
      refine ⟨markFileState s fd, List.mem_cons_self _ _, ?_⟩
      refine ⟨{ g0 with status := .PROCESSING }, ?_, hg0id, rfl⟩
      exact mem_updateFileStatus_self hg0 hg0id _
    · have hid' : fd.id ∈ (markFileState s f).files.map FileData.id := by
        rw [markFileState_map_id]; exact hid
      obtain ⟨st, hst, hgoal⟩ := ih (markFileState s f) fd h hid'
      exact ⟨st, List.mem_cons_of_mem _ hst, hgoal⟩

/-- Every item of some wave is `PROCESSING` in some intermediate state of
the wave loop. -/
theorem wavesRun_processing_state : ∀ (ws : List (List FileData)) (s : AppState) (fd : FileData),
    fd ∈ ws.flatten → fd.id ∈ s.files.map FileData.id →
    ∃ st ∈ (wavesRun s ws).1, ∃ g ∈ st.files,
      g.id = fd.id ∧ g.status = ConversionStatus.PROCESSING := by
  intro ws
  induction ws with
  | nil => intro s fd h; cases h
  | cons w rest ih =>
    intro s fd hfd hid
    rw [List.flatten_cons] at hfd
    rcases List.mem_append.mp hfd with h | h
    · obtain ⟨st, hst, hgoal⟩ := markRun_processing_state w s fd h hid
      refine ⟨st, ?_, hgoal⟩
      simp only [wavesRun, List.mem_append]
      exact Or.inl (Or.inl hst)
    · have hid' : fd.id ∈ (settleRun (markRun s w).2 w).2.files.map FileData.id := by
        rw [settleRun_final_map_id, markRun_final_map_id]; exact hid
      obtain ⟨st, hst, hgoal⟩ := ih (settleRun (markRun s w).2 w).2 fd h hid'
      refine ⟨st, ?_, hgoal⟩
      simp only [wavesRun, List.mem_append]
      exact Or.inr hst

/-- After the settlement phase of a wave, each wave member's store entry
records its conversion outcome: `COMPLETED` with the produced blob on
success, `ERROR` with the fixed message on failure. -/
theorem settleRun_outcome : ∀ (w : List FileData) (s : AppState) (fd : FileData),
    (w.map FileData.id).Nodup → fd ∈ w → fd.id ∈ s.files.map FileData.id →
    ∃ g ∈ (settleRun s w).2.files, g.id = fd.id ∧
      g.status = (if convOk fd then ConversionStatus.COMPLETED else ConversionStatus.ERROR) ∧
      (convOk fd = false → g.error = some "Failed to convert") ∧
      (∀ b, convertImageToPDF fd = Except.ok b → g.pdfBlob = some b) := by
  intro w
  induction w with
  | nil => intro s fd _ h; cases h
  | cons f rest ih =>
    intro s fd hnd hfd hid
    have hndr : (rest.map FileData.id).Nodup := by
      rw [List.map_cons] at hnd
      exact hnd.of_cons
    rcases List.mem_cons.mp hfd with h | h
    · subst h
      obtain ⟨g0, hg0, hg0id⟩ := List.mem_map.mp hid
      have hg1 : settleUpdate (convertImageToPDF fd) g0 ∈ (settleFileState s fd).files :=
        mem_updateFileStatus_self hg0 hg0id _
      have hg2 : settleUpdate (convertImageToPDF fd) g0 ∈
          (settleStatsState (settleFileState s fd) fd).files := hg1
      have hnotin : (settleUpdate (convertImageToPDF fd) g0).id ∉ rest.map FileData.id := by
        rw [settleUpdate_id, hg0id]
        rw [List.map_cons] at hnd
        exact (List.nodup_cons.mp hnd).1
      have hfin := (settleRun_frame rest (settleStatsState (settleFileState s fd) fd)
        (settleUpdate (convertImageToPDF fd) g0) hg2 hnotin).1
      refine ⟨settleUpdate (convertImageToPDF fd) g0, hfin, ?_, ?_, ?_, ?_⟩
      · rw [settleUpdate_id]; exact hg0id
      · cases hr : convertImageToPDF fd with
        | ok b => simp [settleUpdate, convOk, hr, Except.isOk, Except.toBool]
        | error e => simp [settleUpdate, convOk, hr, Except.isOk, Except.toBool]
      · intro hko
        cases hr : convertImageToPDF fd with
        | ok b => rw [convOk, hr] at hko; cases hko
        | error e => simp [settleUpdate, hr]
      · intro b hb
        simp [settleUpdate, hb]
    · have hid' : fd.id ∈ (settleStatsState (settleFileState s f) f).files.map FileData.id := by
        rw [settleStatsState_files, settleFileState_map_id]
        exact hid
      exact ih (settleStatsState (settleFileState s f) f) fd hndr h hid'

/-- Per-item outcome after the whole wave loop. -/
theorem wavesRun_outcome : ∀ (ws : List (List FileData)) (s : AppState) (fd : FileData),
    (ws.flatten.map FileData.id).Nodup → fd ∈ ws.flatten →
    fd.id ∈ s.files.map FileData.id →
    ∃ g ∈ (wavesRun s ws).2.files, g.id = fd.id ∧
      g.status = (if convOk fd then ConversionStatus.COMPLETED else ConversionStatus.ERROR) ∧
      (convOk fd = false → g.error = some "Failed to convert") ∧
      (∀ b, convertImageToPDF fd = Except.ok b → g.pdfBlob = some b) := by
  intro ws
  induction ws with
  | nil => intro s fd _ h; cases h
  | cons w rest ih =>
    intro s fd hnd hfd hid
    rw [List.flatten_cons, List.map_append] at hnd
    have hndw := hnd.of_append_left
    have hndr := hnd.of_append_right
    have hdisj := List.disjoint_of_nodup_append hnd
    rw [List.flatten_cons] at hfd
    rcases List.mem_append.mp hfd with h | h
    · have hid' : fd.id ∈ (markRun s w).2.files.map FileData.id := by
        rw [markRun_final_map_id]; exact hid
      obtain ⟨g, hg, hgid, hgprops⟩ := settleRun_outcome w (markRun s w).2 fd hndw h hid'
      have hgnot : g.id ∉ rest.flatten.map FileData.id := by
        rw [hgid]
        exact fun hmem => hdisj (List.mem_map_of_mem _ h) hmem
      have := (wavesRun_frame rest (settleRun (markRun s w).2 w).2 g hg hgnot).1
      exact ⟨g, this, hgid, hgprops⟩
    · have hid' : fd.id ∈ (settleRun (markRun s w).2 w).2.files.map FileData.id := by
        rw [settleRun_final_map_id, markRun_final_map_id]; exact hid
      exact ih (settleRun (markRun s w).2 w).2 fd hndr h hid'

/-! ## Artifact/error invariants of the store -/

/-- `resultArtifact` set iff status = Done (spec §3). -/
def BlobIffDone (files : List FileData) : Prop :=
  ∀ g ∈ files, g.pdfBlob.isSome ↔ g.status = ConversionStatus.COMPLETED

/-- Every store entry with one of the listed ids is not yet `COMPLETED`. -/
def NotDoneIds (ids : List Nat) (files : List FileData) : Prop :=
  ∀ i ∈ ids, ∀ g ∈ files, g.id = i → g.status ≠ ConversionStatus.COMPLETED

theorem markRun_blob : ∀ (w : List FileData) (s : AppState) (ids : List Nat),
    BlobIffDone s.files → NotDoneIds ids s.files → (∀ f ∈ w, f.id ∈ ids) →
    BlobIffDone (markRun s w).2.files ∧ NotDoneIds ids (markRun s w).2.files ∧
    ∀ st ∈ (markRun s w).1, BlobIffDone st.files := by
  intro w
  induction w with
  | nil => intro s ids hB hN _; exact ⟨hB, hN, by intro st h; cases h⟩
  | cons f rest ih =>
    intro s ids hB hN hw
    have hfid : f.id ∈ ids := hw f (List.mem_cons_self _ _)
    have hB' : BlobIffDone (markFileState s f).files := by
      intro g' hg'
      obtain ⟨g, hg, hcase⟩ := of_mem_updateFileStatus hg'
      rcases hcase with ⟨hid, he⟩ | ⟨_, he⟩
      · subst he
        have hnd := hN f.id hfid g hg hid
        have hnone : g.pdfBlob.isSome = false := by
          by_cases hs : g.pdfBlob.isSome
          · exact absurd ((hB g hg).mp hs) hnd
          · simpa using hs
        constructor
        · intro hcontra
          rw [hnone] at hcontra
          cases hcontra
        · intro hcontra
          cases hcontra
      · rw [he]; exact hB g hg
    have hN' : NotDoneIds ids (markFileState s f).files := by
      intro i hi g' hg' hgid
      obtain ⟨g, hg, hcase⟩ := of_mem_updateFileStatus hg'
      rcases hcase with ⟨_, he⟩ | ⟨_, he⟩
      · subst he; intro hcontra; cases hcontra
      · rw [he] at hgid ⊢; exact hN i hi g hg hgid
    have hrec := ih (markFileState s f) ids hB' hN'
      (fun g hg => hw g (List.mem_cons_of_mem _ hg))
    refine ⟨hrec.1, hrec.2.1, ?_⟩
    intro st hst
    rcases List.mem_cons.mp hst with h | h
    · subst h; exact hB'
    · exact hrec.2.2 st h

theorem settleRun_blob : ∀ (w : List FileData) (s : AppState) (others : List Nat),
    (w.map FileData.id ++ others).Nodup →
    BlobIffDone s.files → NotDoneIds (w.map FileData.id ++ others) s.files →
    BlobIffDone (settleRun s w).2.files ∧ NotDoneIds others (settleRun s w).2.files ∧
    ∀ st ∈ (settleRun s w).1, BlobIffDone st.files := by
  intro w
  induction w with
  | nil =>
    intro s others hnd hB hN
    exact ⟨hB, fun i hi => hN i (List.mem_append_right _ hi), by intro st h; cases h⟩
  | cons f rest ih =>
    intro s others hnd hB hN
    rw [List.map_cons, List.cons_append] at hnd
    have hfnot : f.id ∉ rest.map FileData.id ++ others := (List.nodup_cons.mp hnd).1
    have hndr : (rest.map FileData.id ++ others).Nodup := (List.nodup_cons.mp hnd).2
    have hfid : f.id ∈ (f :: rest).map FileData.id ++ others := by
      rw [List.map_cons, List.cons_append]
      exact List.mem_cons_self _ _
    have hB1 : BlobIffDone (settleFileState s f).files := by
      intro g' hg'
      obtain ⟨g, hg, hcase⟩ := of_mem_updateFileStatus hg'
      rcases hcase with ⟨hid, he⟩ | ⟨_, he⟩
      · subst he
        have hnd2 := hN f.id hfid g hg hid
        have hnone : g.pdfBlob = none := by
          cases hb : g.pdfBlob with
          | none => rfl
          | some b =>
            exact absurd ((hB g hg).mp (by rw [hb]; rfl)) hnd2
        cases hr : convertImageToPDF f with
        | ok b => simp [settleUpdate, hr]
        | error e => simp [settleUpdate, hr, hnone]
      · rw [he]; exact hB g hg
    have hN1 : NotDoneIds (rest.map FileData.id ++ others) (settleFileState s f).files := by
      intro i hi g' hg' hgid
      obtain ⟨g, hg, hcase⟩ := of_mem_updateFileStatus hg'
      rcases hcase with ⟨hid, he⟩ | ⟨_, he⟩
      · exfalso
        apply hfnot
        have : g'.id = g.id := by rw [he, settleUpdate_id]
        rw [← hid, ← this, hgid]
        exact hi
      · rw [he] at hgid ⊢
        exact hN i (by
          rw [List.map_cons, List.cons_append]
          exact List.mem_cons_of_mem _ hi) g hg hgid
    have hrec := ih (settleStatsState (settleFileState s f) f) others hndr hB1 hN1
    refine ⟨hrec.1, hrec.2.1, ?_⟩
    intro st hst
    rcases List.mem_cons.mp hst with h | h
    · subst h; exact hB1
    rcases List.mem_cons.mp h with h' | h'
    · subst h'; exact hB1
    · exact hrec.2.2 st h'

theorem wavesRun_blob : ∀ (ws : List (List FileData)) (s : AppState),
    (ws.flatten.map FileData.id).Nodup →
    BlobIffDone s.files → NotDoneIds (ws.flatten.map FileData.id) s.files →
    BlobIffDone (wavesRun s ws).2.files ∧
    ∀ st ∈ (wavesRun s ws).1, BlobIffDone st.files := by
  intro ws
  induction ws with
  | nil => intro s _ hB _; exact ⟨hB, by intro st h; cases h⟩
  | cons w rest ih =>
    intro s hnd hB hN
    rw [List.flatten_cons, List.map_append] at hnd hN
    have hm := markRun_blob w s (w.map FileData.id ++ rest.flatten.map FileData.id) hB hN
      (fun f hf => List.mem_append_left _ (List.mem_map_of_mem _ hf))
    have hs := settleRun_blob w (markRun s w).2 (rest.flatten.map FileData.id) hnd hm.1 hm.2.1
    have hNrest : NotDoneIds (rest.flatten.map FileData.id)
        (settleRun (markRun (s) w).2 w).2.files := hs.2.1
    have hrec := ih (settleRun (markRun s w).2 w).2 hnd.of_append_right hs.1 hNrest
    refine ⟨hrec.1, ?_⟩
    intro st hst
    simp only [wavesRun, List.mem_append] at hst
    rcases hst with (h | h) | h
    · exact hm.2.2 st h
    · exact hs.2.2 st h
    · exact hrec.2 st h

/-- Both §3 iff-invariants at once: `resultArtifact` iff Done and
`error` iff Failed. -/
def FullInv (files : List FileData) : Prop :=
  ∀ g ∈ files,
    (g.pdfBlob.isSome ↔ g.status = ConversionStatus.COMPLETED) ∧
    (g.error.isSome ↔ g.status = ConversionStatus.ERROR)

/-- Every store entry with one of the listed ids is still clean: queued or
in progress, with no error and no artifact. -/
def CleanIds (ids : List Nat) (files : List FileData) : Prop :=
  ∀ i ∈ ids, ∀ g ∈ files, g.id = i →
    (g.status = ConversionStatus.QUEUED ∨ g.status = ConversionStatus.PROCESSING) ∧
    g.error = none ∧ g.pdfBlob = none

theorem markRun_fullinv : ∀ (w : List FileData) (s : AppState) (ids : List Nat),
    FullInv s.files → CleanIds ids s.files → (∀ f ∈ w, f.id ∈ ids) →
    FullInv (markRun s w).2.files ∧ CleanIds ids (markRun s w).2.files ∧
    ∀ st ∈ (markRun s w).1, FullInv st.files := by
  intro w
  induction w with
  | nil => intro s ids hF hC _; exact ⟨hF, hC, by intro st h; cases h⟩
  | cons f rest ih =>
    intro s ids hF hC hw
    have hfid : f.id ∈ ids := hw f (List.mem_cons_self _ _)
    have hF1 : FullInv (markFileState s f).files := by
      intro g' hg'
      obtain ⟨g, hg, hcase⟩ := of_mem_updateFileStatus hg'
      rcases hcase with ⟨hid, he⟩ | ⟨_, he⟩
      · subst he
        obtain ⟨_, herr, hblob⟩ := hC f.id hfid g hg hid
        refine ⟨?_, ?_⟩ <;> simp [herr, hblob]
      · rw [he]; exact hF g hg
    have hC1 : CleanIds ids (markFileState s f).files := by
      intro i hi g' hg' hgid
      obtain ⟨g, hg, hcase⟩ := of_mem_updateFileStatus hg'
      rcases hcase with ⟨hid, he⟩ | ⟨_, he⟩
      · subst he
        obtain ⟨_, herr, hblob⟩ := hC f.id hfid g hg hid
        exact ⟨Or.inr rfl, herr, hblob⟩
      · rw [he] at hgid ⊢
        exact hC i hi g hg hgid
    have hrec := ih (markFileState s f) ids hF1 hC1
      (fun g hg => hw g (List.mem_cons_of_mem _ hg))
    refine ⟨hrec.1, hrec.2.1, ?_⟩
    intro st hst
    rcases List.mem_cons.mp hst with h | h
    · subst h; exact hF1
    · exact hrec.2.2 st h

theorem settleRun_fullinv : ∀ (w : List FileData) (s : AppState) (others : List Nat),
    (w.map FileData.id ++ others).Nodup →
    FullInv s.files → CleanIds (w.map FileData.id ++ others) s.files →
    FullInv (settleRun s w).2.files ∧ CleanIds others (settleRun s w).2.files ∧
    ∀ st ∈ (settleRun s w).1, FullInv st.files := by
  intro w
  induction w with
  | nil =>
    intro s others hnd hF hC
    exact ⟨hF, fun i hi => hC i (List.mem_append_right _ hi), by intro st h; cases h⟩
  | cons f rest ih =>
    intro s others hnd hF hC
    rw [List.map_cons, List.cons_append] at hnd
    have hfnot : f.id ∉ rest.map FileData.id ++ others := (List.nodup_cons.mp hnd).1
    have hndr : (rest.map FileData.id ++ others).Nodup := (List.nodup_cons.mp hnd).2
    have hfid : f.id ∈ (f :: rest).map FileData.id ++ others := by
      rw [List.map_cons, List.cons_append]
      exact List.mem_cons_self _ _
    have hF1 : FullInv (settleFileState s f).files := by
      intro g' hg'
      obtain ⟨g, hg, hcase⟩ := of_mem_updateFileStatus hg'
      rcases hcase with ⟨hid, he⟩ | ⟨_, he⟩
      · subst he
        obtain ⟨_, herr, hblob⟩ := hC f.id hfid g hg hid
        cases hr : convertImageToPDF f with
        | ok b =>
          refine ⟨?_, ?_⟩ <;> simp [settleUpdate, hr, herr, hblob]
        | error e =>
          refine ⟨?_, ?_⟩ <;> simp [settleUpdate, hr, herr, hblob]
      · rw [he]; exact hF g hg
    have hC1 : CleanIds (rest.map FileData.id ++ others) (settleFileState s f).files := by
      intro i hi g' hg' hgid
      obtain ⟨g, hg, hcase⟩ := of_mem_updateFileStatus hg'
      rcases hcase with ⟨hid, he⟩ | ⟨_, he⟩
      · exfalso
        apply hfnot
        have hgid' : g'.id = g.id := by rw [he, settleUpdate_id]
        rw [← hid, ← hgid', hgid]
        exact hi
      · rw [he] at hgid ⊢
        exact hC i (by
          rw [List.map_cons, List.cons_append]
          exact List.mem_cons_of_mem _ hi) g hg hgid
    have hrec := ih (settleStatsState (settleFileState s f) f) others hndr hF1 hC1
    refine ⟨hrec.1, hrec.2.1, ?_⟩
    intro st hst
    rcases List.mem_cons.mp hst with h | h
    · subst h; exact hF1
    rcases List.mem_cons.mp h with h1 | h1
    · subst h1; exact hF1
    · exact hrec.2.2 st h1

theorem wavesRun_fullinv : ∀ (ws : List (List FileData)) (s : AppState),
    (ws.flatten.map FileData.id).Nodup →
    FullInv s.files → CleanIds (ws.flatten.map FileData.id) s.files →
    FullInv (wavesRun s ws).2.files ∧
    ∀ st ∈ (wavesRun s ws).1, FullInv st.files := by
  intro ws
  induction ws with
  | nil => intro s _ hF _; exact ⟨hF, by intro st h; cases h⟩
  | cons w rest ih =>
    intro s hnd hF hC
    rw [List.flatten_cons, List.map_append] at hnd hC
    have hm := markRun_fullinv w s (w.map FileData.id ++ rest.flatten.map FileData.id) hF hC
      (fun f hf => List.mem_append_left _ (List.mem_map_of_mem _ hf))
    have hs := settleRun_fullinv w (markRun s w).2 (rest.flatten.map FileData.id) hnd hm.1 hm.2.1
    have hrec := ih (settleRun (markRun s w).2 w).2 hnd.of_append_right hs.1 hs.2.1
    refine ⟨hrec.1, ?_⟩
    intro st hst
    simp only [wavesRun, List.mem_append] at hst
    rcases hst with (h | h) | h
    · exact hm.2.2 st h
    · exact hs.2.2 st h
    · exact hrec.2 st h

/-! ## Projection lemmas for the run boundary states -/

theorem processingOnState_files (s : AppState) : (processingOnState s).files = s.files := rfl

theorem processingOnState_stats (s : AppState) : (processingOnState s).stats = s.stats := rfl

theorem statsInitState_files (t : Nat) (s : AppState) : (statsInitState t s).files = s.files := rfl

theorem statsInitState_total (t : Nat) (s : AppState) :
    (statsInitState t s).stats.total = s.files.length := rfl

theorem statsInitState_processed (t : Nat) (s : AppState) :
    (statsInitState t s).stats.processed = 0 := rfl

theorem statsInitState_success (t : Nat) (s : AppState) :
    (statsInitState t s).stats.success = s.stats.success := rfl

theorem statsInitState_failed (t : Nat) (s : AppState) :
    (statsInitState t s).stats.failed = s.stats.failed := rfl

theorem queuedState_files (s : AppState) : (queuedState s).files = markIdleQueued s.files := rfl

theorem queuedState_stats (s : AppState) : (queuedState s).stats = s.stats := rfl

theorem statsEndState_files (t : Nat) (s : AppState) : (statsEndState t s).files = s.files := rfl

theorem statsEndState_total (t : Nat) (s : AppState) :
    (statsEndState t s).stats.total = s.stats.total := rfl

theorem statsEndState_processed (t : Nat) (s : AppState) :
    (statsEndState t s).stats.processed = s.stats.processed := rfl

theorem statsEndState_success (t : Nat) (s : AppState) :
    (statsEndState t s).stats.success = s.stats.success := rfl

theorem statsEndState_failed (t : Nat) (s : AppState) :
    (statsEndState t s).stats.failed = s.stats.failed := rfl

theorem processingOffState_files (s : AppState) : (processingOffState s).files = s.files := rfl

theorem processingOffState_stats (s : AppState) : (processingOffState s).stats = s.stats := rfl

/-! ## Demonstration inputs used by witnesses and counterexamples -/

/-- A decodable, embeddable 4×3 JPEG. -/
def validJpeg (nm : String) : SourceFile :=
  { name := nm, bytes := [255, 216, 255, 224], width := 4, height := 3,
    decodable := true, embeddable := true }

/-- A corrupt stream the browser cannot decode (probe fails). -/
def corruptJpeg (nm : String) : SourceFile :=
  { name := nm, bytes := [0, 1, 2], width := 4, height := 3,
    decodable := false, embeddable := true }

/-- A decodable stream the document backend cannot embed unaltered. -/
def oddJpeg (nm : String) : SourceFile :=
  { name := nm, bytes := [9, 9], width := 2, height := 5,
    decodable := true, embeddable := false }

/-- A freshly dropped item, as `handleFilesAdded` creates it. -/
def idleItem (i : Nat) (sf : SourceFile) : FileData :=
  { id := i, file := sf, previewUrl := "blob:url", status := .IDLE }

/-- The initial `useState` stats. -/
def freshStats : ProcessingStats :=
  { total := 0, processed := 0, success := 0, failed := 0, startTime := none, endTime := none }

/-! ## The claims -/

/-- C1: for every item whose source bytes are a valid JPEG (the probe
decodes it and the backend can embed it, i.e. the conversion returns a
document), the document produced by `convertImageToPDF` embeds the
original compressed byte stream unchanged: the embedded image streams of
the produced document are exactly the item's input byte stream, with no
re-sampling, re-quantization or transcoding. -/
theorem c1_converter_lossless (fd : FileData) (blob : PDFBlob)
    (h : convertImageToPDF fd = Except.ok blob) :
    blob.images.map EmbeddedImage.stream = [fd.file.bytes] := by
  unfold convertImageToPDF getImageDimensions addImage at h
  cases hdec : fd.file.decodable with
  | false => simp [hdec] at h
  | true =>
    cases hemb : fd.file.embeddable with
    | false => simp [hdec, hemb] at h
    | true =>
      simp [hdec, hemb, jsPDFNew] at h
      by_cases hwh : fd.file.height < fd.file.width
      · have hnot : ¬(fd.file.width < fd.file.height) := by omega
        simp [hwh, hnot] at h
        rw [← h]
        rfl
      · simp [hwh] at h
        rw [← h]
        rfl

theorem c1_converter_lossless_witness :
    convertImageToPDF (idleItem 1 (validJpeg "a.jpg")) =
      Except.ok ⟨4, 3, Orientation.landscape, [⟨[255, 216, 255, 224], 0, 0, 4, 3⟩]⟩ ∧
    (⟨4, 3, Orientation.landscape,
        [⟨[255, 216, 255, 224], 0, 0, 4, 3⟩]⟩ : PDFBlob).images.map EmbeddedImage.stream =
      [(idleItem 1 (validJpeg "a.jpg")).file.bytes] :=
  ⟨rfl, c1_converter_lossless _ _ rfl⟩

/-- C7: for every input whose probe yields pixel dimensions and whose
conversion produces a document, the (single-page) document's page size is
exactly (width, height), the orientation is landscape when width > height
and portrait otherwise, and the single embedded image is placed at the
origin covering the full page. -/
theorem c7_page_geometry (fd : FileData) (blob : PDFBlob)
    (h : convertImageToPDF fd = Except.ok blob) :
    blob.pageWidth = fd.file.width ∧ blob.pageHeight = fd.file.height ∧
    blob.orientation = (if fd.file.width > fd.file.height
      then Orientation.landscape else Orientation.portrait) ∧
    blob.images = [⟨fd.file.bytes, 0, 0, fd.file.width, fd.file.height⟩] := by
  unfold convertImageToPDF getImageDimensions addImage at h
  cases hdec : fd.file.decodable with
  | false => simp [hdec] at h
  | true =>
    cases hemb : fd.file.embeddable with
    | false => simp [hdec, hemb] at h
    | true =>
      simp [hdec, hemb, jsPDFNew] at h
      by_cases hwh : fd.file.height < fd.file.width
      · have hnot : ¬(fd.file.width < fd.file.height) := by omega
        simp [hwh, hnot] at h
        rw [← h]
        refine ⟨rfl, rfl, ?_, rfl⟩
        simp [hwh]
      · simp [hwh] at h
        rw [← h]
        refine ⟨rfl, rfl, ?_, rfl⟩
        simp [hwh]

theorem c7_page_geometry_witness :
    convertImageToPDF (idleItem 2 (oddJpeg "tall.jpg") ) =
        Except.error ConvError.EncodingError ∧
    convertImageToPDF (idleItem 1 (validJpeg "a.jpg")) =
      Except.ok ⟨4, 3, Orientation.landscape, [⟨[255, 216, 255, 224], 0, 0, 4, 3⟩]⟩ ∧
    ((4 : Nat) = (idleItem 1 (validJpeg "a.jpg")).file.width ∧
     (3 : Nat) = (idleItem 1 (validJpeg "a.jpg")).file.height) ∧
    (⟨4, 3, Orientation.landscape, [⟨[255, 216, 255, 224], 0, 0, 4, 3⟩]⟩ : PDFBlob).orientation =
      (if (idleItem 1 (validJpeg "a.jpg")).file.width >
          (idleItem 1 (validJpeg "a.jpg")).file.height
        then Orientation.landscape else Orientation.portrait) :=
  ⟨rfl, rfl,
    ⟨((c7_page_geometry (idleItem 1 (validJpeg "a.jpg"))
        ⟨4, 3, Orientation.landscape, [⟨[255, 216, 255, 224], 0, 0, 4, 3⟩]⟩ rfl).1).symm,
     ((c7_page_geometry (idleItem 1 (validJpeg "a.jpg"))
        ⟨4, 3, Orientation.landscape, [⟨[255, 216, 255, 224], 0, 0, 4, 3⟩]⟩ rfl).2.1).symm⟩,
    (c7_page_geometry (idleItem 1 (validJpeg "a.jpg"))
        ⟨4, 3, Orientation.landscape, [⟨[255, 216, 255, 224], 0, 0, 4, 3⟩]⟩ rfl).2.2.1⟩

/-- A store of two fresh items, one convertible and one corrupt, and the
state left behind by running the queue on it once. -/
def c2firstRunEnd : AppState :=
  (processQueueRun 0 0
    { files := [idleItem 1 (validJpeg "a.jpg"), idleItem 2 (corruptJpeg "b.jpg")],
      stats := freshStats, isProcessing := false }).2

/-- C2 counterexample: in a second run started after a first run left
`success = 1, failed = 1`, the very first stats state of the new run has
`processed = 0` but `success + failed = 2` (the start-of-run `setStats`
resets `processed` but not `success`/`failed`), so
`processed = success + failed` fails; moreover `total` is set to the
length of the whole store (2), not to the number of eligible items (1). -/
theorem c2_stats_counterexample :
    ∃ st ∈ (processQueueRun 1 1 c2firstRunEnd).1,
      st.stats.processed ≠ st.stats.success + st.stats.failed ∧
      st.stats.total ≠ (c2firstRunEnd.files.filter isEligible).length := by
  decide

/-- C2 (amended): in a run whose starting stats have `success = 0` and
`failed = 0` (true of the first run; later runs inherit the old counters,
which are not reset), every state from the stats-initialisation onwards
satisfies `processed = success + failed ≤ total`, and `total` is fixed for
the whole run to the length of the WHOLE store at run start — not to the
count of eligible items. -/
theorem c2_stats_invariant (startT endT : Nat) (s : AppState)
    (hs : s.stats.success = 0) (hf : s.stats.failed = 0) :
    ∀ st ∈ (processQueueRun startT endT s).1.drop 1,
      st.stats.processed = st.stats.success + st.stats.failed ∧
      st.stats.processed ≤ st.stats.total ∧
      st.stats.total = s.files.length := by
  intro st hst
  have hfl : (chunks BATCH_SIZE (s.files.filter isEligible)).flatten =
      s.files.filter isEligible := chunks_flatten BATCH_SIZE (by decide) _
  have hlen : (s.files.filter isEligible).length ≤ s.files.length :=
    List.length_filter_le _ _
  have hqstats : (queuedState (statsInitState startT (processingOnState s))).stats.processed = 0 ∧
      (queuedState (statsInitState startT (processingOnState s))).stats.success = 0 ∧
      (queuedState (statsInitState startT (processingOnState s))).stats.failed = 0 ∧
      (queuedState (statsInitState startT (processingOnState s))).stats.total =
        s.files.length := by
    rw [queuedState_stats]
    refine ⟨rfl, ?_, ?_, ?_⟩
    · rw [statsInitState_success, processingOnState_stats]; exact hs
    · rw [statsInitState_failed, processingOnState_stats]; exact hf
    · rw [statsInitState_total, processingOnState_files]
  simp only [processQueueRun, List.drop_succ_cons, List.drop_zero, List.mem_cons,
    List.mem_append, List.mem_singleton] at hst
  obtain ⟨hq1, hq2, hq3, hq4⟩ := hqstats
  have hws := wavesRun_final_stats (chunks BATCH_SIZE (s.files.filter isEligible))
    (queuedState (statsInitState startT (processingOnState s)))
  have hnn := nSuccess_add_nFailed (s.files.filter isEligible)
  rw [hfl] at hws
  rcases hst with h | h | h | h | h | h
  · subst h
    rw [queuedState_stats] at hq1 hq2 hq3 hq4
    exact ⟨by omega, by omega, hq4⟩
  · subst h
    exact ⟨by omega, by omega, hq4⟩
  · have := wavesRun_trace_stats _ _ (by omega) (by rw [hfl, hq4, hq1]; omega) st h
    rw [hq4] at this
    exact this
  · subst h
    refine ⟨?_, ?_, ?_⟩
    · simp only [statsEndState_processed, statsEndState_success, statsEndState_failed, hws]
      omega
    · simp only [statsEndState_processed, statsEndState_total, hws]
      omega
    · simp only [statsEndState_total, hws]
      omega
  · subst h
    refine ⟨?_, ?_, ?_⟩
    · simp only [processingOffState_stats, statsEndState_processed, statsEndState_success,
        statsEndState_failed, hws]
      omega
    · simp only [processingOffState_stats, statsEndState_processed, statsEndState_total, hws]
      omega
    · simp only [processingOffState_stats, statsEndState_total, hws]
      omega
  · exact absurd h (List.not_mem_nil _)

/-- A one-item fresh store used to instantiate the amended C2 invariant. -/
def c2wState : AppState :=
  { files := [idleItem 4 (validJpeg "d.jpg")], stats := freshStats, isProcessing := false }

theorem c2_stats_invariant_witness :
    (c2wState.stats.success = 0 ∧ c2wState.stats.failed = 0) ∧
    ∀ st ∈ (processQueueRun 0 0 c2wState).1.drop 1,
      st.stats.processed = st.stats.success + st.stats.failed ∧
      st.stats.processed ≤ st.stats.total ∧
      st.stats.total = c2wState.files.length :=
  ⟨⟨rfl, rfl⟩, c2_stats_invariant 0 0 c2wState rfl rfl⟩

/-- C3: the scheduler partitions the eligible items, in original order,
into consecutive waves of size at most `BATCH_SIZE` (= 5); the event
stream of a run is the concatenation of the wave event blocks in
submission order, where each wave's marks all precede its settlements,
the wave settles completely before the 50 ms delay and before any event
of a later wave; and for a store of 12 eligible, convertible items started
with zeroed counters there are exactly 3 waves of sizes 5, 5, 2 and the
run ends with `total = 12`, `processed = 12`, `failed = 0`. -/
theorem c3_scheduler_waves :
    (∀ s : AppState,
      (chunks BATCH_SIZE (s.files.filter isEligible)).flatten = s.files.filter isEligible ∧
      ∀ w ∈ chunks BATCH_SIZE (s.files.filter isEligible), w.length ≤ BATCH_SIZE) ∧
    (∀ (s : AppState) (ws1 : List (List FileData)) (w : List FileData)
        (ws2 : List (List FileData)),
      chunks BATCH_SIZE (s.files.filter isEligible) = ws1 ++ w :: ws2 →
      runEvents s =
        (ws1.map waveEvents).flatten ++
        ((w.map fun f => RunEvent.mark f.id) ++
         (w.map fun f => RunEvent.settle f.id (convertImageToPDF f).isOk) ++
         [RunEvent.delay 50]) ++
        (ws2.map waveEvents).flatten) ∧
    (∀ (startT endT : Nat) (s : AppState),
      (∀ f ∈ s.files, isEligible f) → s.files.length = 12 →
      (∀ f ∈ s.files, convOk f) →
      s.stats.success = 0 → s.stats.failed = 0 →
      (chunks BATCH_SIZE (s.files.filter isEligible)).map List.length = [5, 5, 2] ∧
      (processQueueRun startT endT s).2.stats.total = 12 ∧
      (processQueueRun startT endT s).2.stats.processed = 12 ∧
      (processQueueRun startT endT s).2.stats.failed = 0) := by
  refine ⟨?_, ?_, ?_⟩
  · intro s
    exact ⟨chunks_flatten BATCH_SIZE (by decide) _, chunks_length_le BATCH_SIZE _⟩
  · intro s ws1 w ws2 hsplit
    unfold runEvents
    rw [hsplit, List.map_append, List.map_cons, List.flatten_append, List.flatten_cons]
    simp [waveEvents, List.append_assoc]
  · intro startT endT s h1 h2 h3 hs hf
    have hfe : s.files.filter isEligible = s.files := List.filter_eq_self.mpr h1
    have hfl := chunks_flatten BATCH_SIZE (by decide) (s.files.filter isEligible)
    have hws := wavesRun_final_stats (chunks BATCH_SIZE (s.files.filter isEligible))
      (queuedState (statsInitState startT (processingOnState s)))
    rw [hfl, hfe] at hws
    have hnf : nFailed s.files = 0 := by
      unfold nFailed
      rw [List.countP_eq_zero]
      intro f hfm
      rw [h3 f hfm]
      decide
    refine ⟨by rw [hfe]; exact chunks_sizes_twelve s.files h2, ?_, ?_, ?_⟩
    · simp only [processQueueRun, hfe, processingOffState_stats, statsEndState_total, hws,
        queuedState_stats, statsInitState_total, processingOnState_files]
      omega
    · simp only [processQueueRun, hfe, processingOffState_stats, statsEndState_processed, hws,
        queuedState_stats, statsInitState_processed]
      omega
    · simp only [processQueueRun, hfe, processingOffState_stats, statsEndState_failed, hws,
        queuedState_stats, statsInitState_failed, processingOnState_stats, hf, hnf]

/-- Twelve fresh convertible items. -/
def c3wState : AppState :=
  { files := (List.range 12).map (fun i => idleItem (i + 1) (validJpeg "img.jpg")),
    stats := freshStats, isProcessing := false }

theorem c3_scheduler_waves_witness :
    ((∀ f ∈ c3wState.files, isEligible f) ∧ c3wState.files.length = 12 ∧
      (∀ f ∈ c3wState.files, convOk f) ∧
      c3wState.stats.success = 0 ∧ c3wState.stats.failed = 0) ∧
    ((chunks BATCH_SIZE (c3wState.files.filter isEligible)).map List.length = [5, 5, 2] ∧
      (processQueueRun 0 0 c3wState).2.stats.total = 12 ∧
      (processQueueRun 0 0 c3wState).2.stats.processed = 12 ∧
      (processQueueRun 0 0 c3wState).2.stats.failed = 0) :=
  ⟨⟨by decide, by decide, by decide, rfl, rfl⟩,
    c3_scheduler_waves.2.2 0 0 c3wState (by decide) (by decide) (by decide) rfl rfl⟩

/-- A store holding a single previously-failed item (as a failed run
leaves it) whose conversion would now succeed. -/
def c4item : FileData :=
  { id := 7, file := validJpeg "x.jpg", previewUrl := "blob:url",
    status := .ERROR, error := some "Failed to convert" }

def c4state : AppState :=
  { files := [c4item],
    stats := { total := 1, processed := 1, success := 0, failed := 1,
               startTime := some 0, endTime := some 0 },
    isProcessing := false }

/-- C4 counterexample: re-running with one Failed item, no state of the
run ever shows the item `QUEUED` (the bulk transition only touches `IDLE`
items), yet the item is later `PROCESSING`: the code takes
Failed→InProgress directly, contradicting the claim that every eligible
item is first transitioned to Queued (Failed→Queued) before any wave is
dispatched. -/
theorem c4_bulk_queue_counterexample :
    (∀ st ∈ (processQueueRun 0 0 c4state).1, ∀ g ∈ st.files,
      g.status ≠ ConversionStatus.QUEUED) ∧
    (∃ st ∈ (processQueueRun 0 0 c4state).1, ∃ g ∈ st.files,
      g.status = ConversionStatus.PROCESSING) := by
  decide

/-- C4 (amended): at run start exactly the Idle-or-Failed items are
eligible; the bulk transition (the state right after it, the third state
of the run) marks exactly the `IDLE` items `QUEUED` and leaves all other
items — including re-submitted Failed ones — untouched, while `total` is
set to the length of the whole store; a re-submitted Failed item skips the
Queued state and is marked InProgress directly when its wave dispatches. -/
theorem c4_bulk_queue (startT endT : Nat) (s : AppState) :
    (∀ fd, fd ∈ s.files.filter isEligible ↔ fd ∈ s.files ∧
      (fd.status = ConversionStatus.IDLE ∨ fd.status = ConversionStatus.ERROR)) ∧
    (∃ st, (processQueueRun startT endT s).1[2]? = some st ∧
      st.stats.total = s.files.length ∧
      ∀ fd ∈ s.files,
        (fd.status = ConversionStatus.IDLE →
          { fd with status := ConversionStatus.QUEUED } ∈ st.files) ∧
        (fd.status ≠ ConversionStatus.IDLE → fd ∈ st.files)) ∧
    (∀ fd ∈ s.files, fd.status = ConversionStatus.ERROR →
      ∃ st ∈ (processQueueRun startT endT s).1, ∃ g ∈ st.files,
        g.id = fd.id ∧ g.status = ConversionStatus.PROCESSING) := by
  refine ⟨?_, ?_, ?_⟩
  · intro fd
    rw [List.mem_filter]
    unfold isEligible
    constructor
    · intro ⟨h1, h2⟩
      refine ⟨h1, ?_⟩
      rcases Bool.or_eq_true_iff.mp h2 with h | h
      · exact Or.inl (by exact_mod_cast of_decide_eq_true h)
      · exact Or.inr (by exact_mod_cast of_decide_eq_true h)
    · intro ⟨h1, h2⟩
      refine ⟨h1, ?_⟩
      rcases h2 with h | h <;> simp [h]
  · refine ⟨queuedState (statsInitState startT (processingOnState s)), ?_, rfl, ?_⟩
    · simp only [processQueueRun, List.getElem?_cons_succ, List.getElem?_cons_zero]
    intro fd hfd
    constructor
    · intro hidle
      rw [queuedState_files, statsInitState_files, processingOnState_files]
      exact mem_markIdleQueued_of_idle hfd hidle
    · intro hne
      rw [queuedState_files, statsInitState_files, processingOnState_files]
      exact mem_markIdleQueued_of_ne hfd hne
  · intro fd hfd herr
    have helig : isEligible fd = true := by
      unfold isEligible
      rw [herr]
      simp
    have hq : fd ∈ s.files.filter isEligible := List.mem_filter.mpr ⟨hfd, helig⟩
    have hfl : fd ∈ (chunks BATCH_SIZE (s.files.filter isEligible)).flatten := by
      rw [chunks_flatten BATCH_SIZE (by decide)]
      exact hq
    have hid : fd.id ∈ (queuedState (statsInitState startT
        (processingOnState s))).files.map FileData.id := by
      rw [queuedState_files, statsInitState_files, processingOnState_files,
        markIdleQueued_map_id]
      exact List.mem_map_of_mem _ hfd
    obtain ⟨st, hst, hgoal⟩ := wavesRun_processing_state
      (chunks BATCH_SIZE (s.files.filter isEligible))
      (queuedState (statsInitState startT (processingOnState s))) fd hfl hid
    refine ⟨st, ?_, hgoal⟩
    simp only [processQueueRun, List.mem_cons, List.mem_append]
    exact Or.inr (Or.inr (Or.inr (Or.inl hst)))

theorem c4_bulk_queue_witness :
    (c4item ∈ c4state.files ∧ c4item.status = ConversionStatus.ERROR) ∧
    ∃ st ∈ (processQueueRun 0 0 c4state).1, ∃ g ∈ st.files,
      g.id = c4item.id ∧ g.status = ConversionStatus.PROCESSING :=
  ⟨⟨by decide, rfl⟩,
    (c4_bulk_queue 0 0 c4state).2.2 c4item (by decide) rfl⟩

/-- A fresh one-item store whose item is corrupt, and the state a first
run leaves behind (the item Failed with its message recorded). -/
def c5state : AppState :=
  { files := [idleItem 3 (corruptJpeg "c.jpg")], stats := freshStats, isProcessing := false }

def c5firstRunEnd : AppState := (processQueueRun 0 0 c5state).2

/-- C5 counterexample: when the Failed item is re-submitted in a second
run, the error message recorded by the first run is not cleared, so there
is an instant at which the item is `PROCESSING` (InProgress) while its
`error` field is still present — refuting "error is present iff the
status is Failed" at every instant. -/
theorem c5_artifact_error_counterexample :
    ∃ st ∈ (processQueueRun 1 1 c5firstRunEnd).1, ∃ g ∈ st.files,
      g.status = ConversionStatus.PROCESSING ∧ g.error ≠ none := by
  decide

/-- C5 (amended): every item always has exactly one status (by
construction of the store), and `pdfBlob` present iff status = Done holds
at every instant of any run whose starting store satisfies it (with
distinct ids), hence at all times; but `error` present iff status =
Failed holds only for runs started from a fresh store — the error message
is set when an item fails and never cleared, so a re-submitted Failed
item carries the stale message through InProgress (and through Done if it
later succeeds). -/
theorem c5_artifact_error_invariant (startT endT : Nat) (s : AppState)
    (hnd : (s.files.map FileData.id).Nodup) :
    ((∀ fd ∈ s.files, fd.pdfBlob.isSome ↔ fd.status = ConversionStatus.COMPLETED) →
      ∀ st ∈ (processQueueRun startT endT s).1, ∀ fd ∈ st.files,
        fd.pdfBlob.isSome ↔ fd.status = ConversionStatus.COMPLETED) ∧
    ((∀ fd ∈ s.files, fd.status = ConversionStatus.IDLE ∧
        fd.pdfBlob = none ∧ fd.error = none) →
      ∀ st ∈ (processQueueRun startT endT s).1, ∀ fd ∈ st.files,
        (fd.pdfBlob.isSome ↔ fd.status = ConversionStatus.COMPLETED) ∧
        (fd.error.isSome ↔ fd.status = ConversionStatus.ERROR)) := by
  have hCfiles : (queuedState (statsInitState startT (processingOnState s))).files =
      markIdleQueued s.files := rfl
  have hqid : ((s.files.filter isEligible).map FileData.id).Nodup :=
    List.Nodup.sublist (List.Sublist.map FileData.id (List.filter_sublist _)) hnd
  have hflat : (chunks BATCH_SIZE (s.files.filter isEligible)).flatten =
      s.files.filter isEligible := chunks_flatten BATCH_SIZE (by decide) _
  have hndfl : ((chunks BATCH_SIZE (s.files.filter isEligible)).flatten.map
      FileData.id).Nodup := by rw [hflat]; exact hqid
  constructor
  · intro hB st hst fd hfd
    have hBC : BlobIffDone (markIdleQueued s.files) := by
      intro g' hg'
      obtain ⟨g, hg, hcase⟩ := of_mem_markIdleQueued hg'
      rcases hcase with ⟨hi, he⟩ | ⟨_, he⟩
      · subst he
        have : g.pdfBlob.isSome = false := by
          by_cases hx : g.pdfBlob.isSome
          · rw [(hB g hg).mp hx] at hi
            cases hi
          · simpa using hx
        rw [this]
        constructor
        · intro hco; cases hco
        · intro hco; cases hco
      · rw [he]; exact hB g hg
    have hNC : NotDoneIds ((chunks BATCH_SIZE (s.files.filter isEligible)).flatten.map
        FileData.id) (markIdleQueued s.files) := by
      intro i hi g' hg' hgid
      rw [hflat] at hi
      obtain ⟨q, hq, hqid2⟩ := List.mem_map.mp hi
      have hqmem := (List.mem_filter.mp hq).1
      have hqel := (List.mem_filter.mp hq).2
      obtain ⟨g, hg, hcase⟩ := of_mem_markIdleQueued hg'
      rcases hcase with ⟨_, he⟩ | ⟨hni, he⟩
      · subst he; intro hco; cases hco
      · rw [he] at hgid ⊢
        have : g = q := List.inj_on_of_nodup_map hnd hg hqmem (by rw [hgid, hqid2])
        subst this
        unfold isEligible at hqel
        rcases Bool.or_eq_true_iff.mp hqel with hx | hx
        · exact absurd (of_decide_eq_true hx) hni
        · rw [of_decide_eq_true hx]
          intro hco
          cases hco
    have hwb := wavesRun_blob (chunks BATCH_SIZE (s.files.filter isEligible))
      (queuedState (statsInitState startT (processingOnState s))) hndfl
      (by rw [hCfiles]; exact hBC) (by rw [hCfiles]; exact hNC)
    simp only [processQueueRun, List.mem_cons, List.mem_append, List.mem_singleton] at hst
    rcases hst with h | h | h | h | h | h | h
    · subst h; exact hB fd hfd
    · subst h; exact hB fd hfd
    · subst h; exact hBC fd hfd
    · exact hwb.2 st h fd hfd
    · subst h; exact hwb.1 fd hfd
    · subst h; exact hwb.1 fd hfd
    · exact absurd h (List.not_mem_nil _)
  · intro hfresh st hst fd hfd
    have hFC : FullInv (markIdleQueued s.files) := by
      intro g' hg'
      obtain ⟨g, hg, hcase⟩ := of_mem_markIdleQueued hg'
      obtain ⟨hgi, hgb, hge⟩ := hfresh g hg
      rcases hcase with ⟨_, he⟩ | ⟨hni, he⟩
      · subst he
        rw [hgb, hge]
        exact ⟨by constructor <;> (intro hco; cases hco), by constructor <;> (intro hco; cases hco)⟩
      · exact absurd hgi hni
    have hCC : CleanIds ((chunks BATCH_SIZE (s.files.filter isEligible)).flatten.map
        FileData.id) (markIdleQueued s.files) := by
      intro i _ g' hg' _
      obtain ⟨g, hg, hcase⟩ := of_mem_markIdleQueued hg'
      obtain ⟨hgi, hgb, hge⟩ := hfresh g hg
      rcases hcase with ⟨_, he⟩ | ⟨hni, he⟩
      · subst he
        exact ⟨Or.inl rfl, hge, hgb⟩
      · exact absurd hgi hni
    have hFs : FullInv s.files := by
      intro g hg
      obtain ⟨hgi, hgb, hge⟩ := hfresh g hg
      rw [hgi, hgb, hge]
      exact ⟨by constructor <;> (intro hco; cases hco), by constructor <;> (intro hco; cases hco)⟩
    have hwf := wavesRun_fullinv (chunks BATCH_SIZE (s.files.filter isEligible))
      (queuedState (statsInitState startT (processingOnState s))) hndfl
      (by rw [hCfiles]; exact hFC) (by rw [hCfiles]; exact hCC)
    simp only [processQueueRun, List.mem_cons, List.mem_append, List.mem_singleton] at hst
    rcases hst with h | h | h | h | h | h | h
    · subst h; exact hFs fd hfd
    · subst h; exact hFs fd hfd
    · subst h; exact hFC fd hfd
    · exact hwf.2 st h fd hfd
    · subst h; exact hwf.1 fd hfd
    · subst h; exact hwf.1 fd hfd
    · exact absurd h (List.not_mem_nil _)

/-- A fresh two-item store for instantiating the amended C5 invariant. -/
def c5wState : AppState :=
  { files := [idleItem 1 (validJpeg "a.jpg"), idleItem 2 (corruptJpeg "b.jpg")],
    stats := freshStats, isProcessing := false }

theorem c5_artifact_error_invariant_witness :
    ((c5wState.files.map FileData.id).Nodup ∧
      (∀ fd ∈ c5wState.files, fd.status = ConversionStatus.IDLE ∧
        fd.pdfBlob = none ∧ fd.error = none)) ∧
    ∀ st ∈ (processQueueRun 0 0 c5wState).1, ∀ fd ∈ st.files,
      (fd.pdfBlob.isSome ↔ fd.status = ConversionStatus.COMPLETED) ∧
      (fd.error.isSome ↔ fd.status = ConversionStatus.ERROR) :=
  ⟨⟨by decide, by decide⟩,
    (c5_artifact_error_invariant 0 0 c5wState (by decide)).2 (by decide)⟩

theorem waveEvents_settle_count (w : List FileData) :
    (waveEvents w).countP RunEvent.isSettle = w.length := by
  unfold waveEvents
  rw [List.countP_append, List.countP_append, List.countP_map, List.countP_map]
  have h1 : w.countP (RunEvent.isSettle ∘ fun f => RunEvent.mark f.id) = 0 := by
    rw [List.countP_eq_zero]
    intro f _
    simp [RunEvent.isSettle]
  have h2 : w.countP
      (RunEvent.isSettle ∘ fun f => RunEvent.settle f.id (convertImageToPDF f).isOk) =
      w.length := by
    rw [List.countP_eq_length]
    intro f _
    simp [RunEvent.isSettle]
  have h3 : List.countP RunEvent.isSettle [RunEvent.delay 50] = 0 := rfl
  rw [h1, h2, h3]
  omega

theorem flatten_waveEvents_settle_count : ∀ ws : List (List FileData),
    ((ws.map waveEvents).flatten).countP RunEvent.isSettle = ws.flatten.length := by
  intro ws
  induction ws with
  | nil => rfl
  | cons w rest ih =>
    rw [List.map_cons, List.flatten_cons, List.countP_append, ih, waveEvents_settle_count,
      List.flatten_cons, List.length_append]

/-- Exactly one settlement event per queued item: there is no retry
inside a run. -/
theorem runEvents_settle_count (s : AppState) :
    (runEvents s).countP RunEvent.isSettle = (s.files.filter isEligible).length := by
  unfold runEvents
  rw [flatten_waveEvents_settle_count, chunks_flatten BATCH_SIZE (by decide)]

/-- The store of scenario B-like mixed failures: one item whose probe
fails and one whose embedding fails. -/
def c6state : AppState :=
  { files := [idleItem 11 (corruptJpeg "p.jpg"), idleItem 12 (oddJpeg "q.jpg")],
    stats := freshStats, isProcessing := false }

/-- C6 counterexample: the two failure kinds (`ProbeError` for the corrupt
item, `EncodingError` for the unembeddable one) are both recorded with the
identical fixed message `"Failed to convert"`: the recorded message does
not identify the error kind, and no error kind is recorded. -/
theorem c6_failure_isolation_counterexample :
    convertImageToPDF (idleItem 11 (corruptJpeg "p.jpg")) =
      Except.error ConvError.ProbeError ∧
    convertImageToPDF (idleItem 12 (oddJpeg "q.jpg")) =
      Except.error ConvError.EncodingError ∧
    (∀ g ∈ (processQueueRun 0 0 c6state).2.files,
      g.status = ConversionStatus.ERROR ∧ g.error = some "Failed to convert") ∧
    (processQueueRun 0 0 c6state).2.stats.failed = 2 ∧
    (processQueueRun 0 0 c6state).2.stats.success = 0 :=
  ⟨rfl, rfl, by decide, by decide, by decide⟩

/-- C6 (amended): every per-item conversion failure is caught at the
per-item boundary and never aborts the wave or the run — every eligible
item still settles, ending `COMPLETED` on success and `ERROR` on failure
with the fixed human-readable message `"Failed to convert"` (which does
not identify the error kind); the final counters equal the number of
successful/failed conversions among the eligible items; and the run
settles each eligible item exactly once (no retry). -/
theorem c6_failure_isolation (startT endT : Nat) (s : AppState)
    (hnd : (s.files.map FileData.id).Nodup)
    (hs : s.stats.success = 0) (hf : s.stats.failed = 0) :
    (∀ fd ∈ s.files.filter isEligible,
      ∃ g ∈ (processQueueRun startT endT s).2.files, g.id = fd.id ∧
        g.status = (if convOk fd then ConversionStatus.COMPLETED
          else ConversionStatus.ERROR) ∧
        (convOk fd = false → g.error = some "Failed to convert")) ∧
    (processQueueRun startT endT s).2.stats.processed =
      (s.files.filter isEligible).length ∧
    (processQueueRun startT endT s).2.stats.success =
      nSuccess (s.files.filter isEligible) ∧
    (processQueueRun startT endT s).2.stats.failed =
      nFailed (s.files.filter isEligible) ∧
    (runEvents s).countP RunEvent.isSettle = (s.files.filter isEligible).length := by
  have hqid : ((s.files.filter isEligible).map FileData.id).Nodup :=
    List.Nodup.sublist (List.Sublist.map FileData.id (List.filter_sublist _)) hnd
  have hflat : (chunks BATCH_SIZE (s.files.filter isEligible)).flatten =
      s.files.filter isEligible := chunks_flatten BATCH_SIZE (by decide) _
  have hndfl : ((chunks BATCH_SIZE (s.files.filter isEligible)).flatten.map
      FileData.id).Nodup := by rw [hflat]; exact hqid
  have hws := wavesRun_final_stats (chunks BATCH_SIZE (s.files.filter isEligible))
    (queuedState (statsInitState startT (processingOnState s)))
  rw [hflat] at hws
  refine ⟨?_, ?_, ?_, ?_, runEvents_settle_count s⟩
  · intro fd hfd
    have hid : fd.id ∈ (queuedState (statsInitState startT
        (processingOnState s))).files.map FileData.id := by
      rw [queuedState_files, statsInitState_files, processingOnState_files,
        markIdleQueued_map_id]
      exact List.mem_map_of_mem _ (List.mem_filter.mp hfd).1
    obtain ⟨g, hg, hgid, hgst, hgerr, _⟩ := wavesRun_outcome
      (chunks BATCH_SIZE (s.files.filter isEligible))
      (queuedState (statsInitState startT (processingOnState s))) fd hndfl
      (by rw [hflat]; exact hfd) hid
    exact ⟨g, hg, hgid, hgst, hgerr⟩
  · simp only [processQueueRun, processingOffState_stats, statsEndState_processed, hws,
      queuedState_stats, statsInitState_processed]
    omega
  · simp only [processQueueRun, processingOffState_stats, statsEndState_success, hws,
      queuedState_stats, statsInitState_success, processingOnState_stats, hs]
    omega
  · simp only [processQueueRun, processingOffState_stats, statsEndState_failed, hws,
      queuedState_stats, statsInitState_failed, processingOnState_stats, hf]
    omega

/-- Scenario B: a single corrupt, non-decodable JPEG. -/
def c6wState : AppState :=
  { files := [idleItem 21 (corruptJpeg "only.jpg")], stats := freshStats,
    isProcessing := false }

theorem c6_failure_isolation_witness :
    ((c6wState.files.map FileData.id).Nodup ∧
      c6wState.stats.success = 0 ∧ c6wState.stats.failed = 0) ∧
    (processQueueRun 0 0 c6wState).2.stats.failed =
      nFailed (c6wState.files.filter isEligible) ∧
    nFailed (c6wState.files.filter isEligible) = 1 ∧
    (processQueueRun 0 0 c6wState).2.stats.success =
      nSuccess (c6wState.files.filter isEligible) ∧
    nSuccess (c6wState.files.filter isEligible) = 0 :=
  ⟨⟨by decide, rfl, rfl⟩,
    (c6_failure_isolation 0 0 c6wState (by decide) rfl rfl).2.2.2.1,
    by decide,
    (c6_failure_isolation 0 0 c6wState (by decide) rfl rfl).2.2.1,
    by decide⟩

/-! ## Packager lemmas -/

theorem zipSetFile_not_mem (acc : List (String × PDFBlob)) (n : String) (b : PDFBlob)
    (h : ∀ e ∈ acc, e.1 ≠ n) : zipSetFile acc n b = acc ++ [(n, b)] := by
  unfold zipSetFile
  rw [if_neg]
  intro hc
  obtain ⟨e, he, hp⟩ := List.any_eq_true.mp hc
  exact h e he (of_decide_eq_true hp)

theorem zipSetFile_find_self (acc : List (String × PDFBlob)) (n : String) (b : PDFBlob) :
    (zipSetFile acc n b).find? (fun e => e.1 = n) = some (n, b) := by
  unfold zipSetFile
  by_cases h : acc.any (fun e => e.1 = n)
  · rw [if_pos h]
    induction acc with
    | nil => cases h
    | cons e rest ih =>
      rw [List.map_cons]
      by_cases he : e.1 = n
      · rw [if_pos he]
        simp [List.find?_cons]
      · rw [if_neg he]
        rw [List.find?_cons_of_neg _ (by simpa using he)]
        apply ih
        rw [List.any_cons] at h
        rcases Bool.or_eq_true_iff.mp h with hx | hx
        · exact absurd (of_decide_eq_true hx) he
        · exact hx
  · rw [if_neg h]
    rw [List.find?_append]
    have hnone : acc.find? (fun e => e.1 = n) = none := by
      rw [List.find?_eq_none]
      intro e he
      intro hp
      exact h (List.any_eq_true.mpr ⟨e, he, hp⟩)
    rw [hnone]
    simp [List.find?_cons]

theorem zipSetFile_find_other (acc : List (String × PDFBlob)) (nset n : String)
    (b : PDFBlob) (hne : nset ≠ n) :
    (zipSetFile acc nset b).find? (fun e => e.1 = n) = acc.find? (fun e => e.1 = n) := by
  unfold zipSetFile
  by_cases h : acc.any (fun e => e.1 = nset)
  · rw [if_pos h]
    induction acc with
    | nil => rfl
    | cons e rest ih =>
      rw [List.map_cons]
      by_cases he : e.1 = nset
      · rw [if_pos he]
        have h1 : ¬((nset, b).1 = n) := hne
        have h2 : ¬(e.1 = n) := by rw [he]; exact hne
        rw [List.find?_cons_of_neg _ (by simpa using h1),
          List.find?_cons_of_neg _ (by simpa using h2)]
        by_cases hr : rest.any (fun e => e.1 = nset)
        · exact ih hr
        · have hmapid : rest.map (fun e => if e.1 = nset then (nset, b) else e) =
              rest.map id := by
            apply List.map_congr_left
            intro x hx
            rw [if_neg]
            · rfl
            · intro hc
              exact hr (List.any_eq_true.mpr ⟨x, hx, by simp [hc]⟩)
          rw [hmapid, List.map_id]
      · rw [if_neg he]
        by_cases hp : e.1 = n
        · rw [List.find?_cons_of_pos _ (by simpa using hp),
            List.find?_cons_of_pos _ (by simpa using hp)]
        · rw [List.find?_cons_of_neg _ (by simpa using hp),
            List.find?_cons_of_neg _ (by simpa using hp)]
          by_cases hr : rest.any (fun e => e.1 = nset)
          · exact ih hr
          · have hmapid : rest.map (fun e => if e.1 = nset then (nset, b) else e) =
                rest.map id := by
              apply List.map_congr_left
              intro x hx
              rw [if_neg]
              · rfl
              · intro hc
                exact hr (List.any_eq_true.mpr ⟨x, hx, by simp [hc]⟩)
            rw [hmapid, List.map_id]
  · rw [if_neg h, List.find?_append]
    have hlast : ([(nset, b)]).find? (fun e => e.1 = n) = none := by
      rw [List.find?_eq_none]
      intro e he hp
      rw [List.mem_singleton.mp he] at hp
      exact hne (of_decide_eq_true hp)
    rw [hlast]
    cases acc.find? (fun e => e.1 = n) <;> rfl

theorem createZip_entries_aux : ∀ (files : List FileData) (acc : List (String × PDFBlob)),
    ((acc.map Prod.fst) ++ ((files.filter (fun f => f.pdfBlob.isSome)).map
      (fun f => pdfFileName f.file.name))).Nodup →
    files.foldl
      (fun acc file =>
        match file.pdfBlob with
        | some blob => zipSetFile acc (pdfFileName file.file.name) blob
        | none => acc)
      acc =
    acc ++ files.filterMap (fun f => f.pdfBlob.map (fun b => (pdfFileName f.file.name, b))) := by
  intro files
  induction files with
  | nil => intro acc _; simp
  | cons f rest ih =>
    intro acc hnd
    cases hb : f.pdfBlob with
    | none =>
      rw [List.foldl_cons]
      simp only [hb]
      rw [ih acc (by
        rw [List.filter_cons] at hnd
        simpa [hb] using hnd)]
      simp [List.filterMap_cons, hb]
    | some b =>
      rw [List.foldl_cons]
      simp only [hb]
      have hfc : (f :: rest).filter (fun f => f.pdfBlob.isSome) =
          f :: rest.filter (fun f => f.pdfBlob.isSome) := by
        rw [List.filter_cons, if_pos (by simp [hb])]
      rw [hfc, List.map_cons] at hnd
      have hdisj := List.disjoint_of_nodup_append hnd
      have hnotin : ∀ e ∈ acc, e.1 ≠ pdfFileName f.file.name := by
        intro e he hc
        exact hdisj (by rw [← hc]; exact List.mem_map_of_mem _ he)
          (List.mem_cons_self _ _)
      rw [zipSetFile_not_mem acc _ b hnotin]
      rw [ih (acc ++ [(pdfFileName f.file.name, b)]) (by
        rw [List.map_append]
        rw [List.append_assoc]
        simpa using hnd)]
      rw [List.append_assoc]
      simp [List.filterMap_cons, hb]

theorem createZipFromFiles_find (files : List FileData) (n : String) :
    (createZipFromFiles files).entries.find? (fun e => e.1 = n) =
      ((files.filter (fun f => f.pdfBlob.isSome && pdfFileName f.file.name = n)).getLast?).bind
        (fun f => f.pdfBlob.map (fun b => (n, b))) := by
  unfold createZipFromFiles
  induction files using List.reverseRecOn with
  | nil => rfl
  | append_singleton l f ih =>
    rw [List.foldl_append, List.filter_append, List.foldl_cons, List.foldl_nil]
    cases hb : f.pdfBlob with
    | none =>
      simp only [hb]
      have hfe : [f].filter (fun f => f.pdfBlob.isSome && pdfFileName f.file.name = n) = [] := by
        simp [List.filter_cons, hb]
      rw [hfe, List.append_nil]
      exact ih
    | some b =>
      simp only [hb]
      by_cases hn : pdfFileName f.file.name = n
      · have hfe : [f].filter (fun f => f.pdfBlob.isSome && pdfFileName f.file.name = n) =
            [f] := by
          simp [List.filter_cons, hb, hn]
        rw [hfe, hn, zipSetFile_find_self, List.getLast?_concat]
        simp [hb]
      · have hfe : [f].filter (fun f => f.pdfBlob.isSome && pdfFileName f.file.name = n) =
            [] := by
          simp [List.filter_cons, hb, hn]
        rw [hfe, List.append_nil, zipSetFile_find_other _ _ _ _ hn]
        exact ih

/-- An unreachable-through-the-app but type-correct item: Failed status
with an artifact still present. -/
def c8blob : PDFBlob := ⟨4, 3, .landscape, [⟨[255, 216], 0, 0, 4, 3⟩]⟩

def c8item : FileData :=
  { id := 9, file := validJpeg "r.jpg", previewUrl := "blob:url",
    status := .ERROR, pdfBlob := some c8blob, error := some "Failed to convert" }

/-- C8 counterexample: `createZipFromFiles` filters only on artifact
presence, not on status — called on a list holding one item with an
artifact but status Failed, the archive has one entry although the list
has zero Done-with-artifact items, refuting "exactly one entry per item
that has status Done and a present result artifact" for arbitrary lists
passed to the Packager. -/
theorem c8_packager_counterexample :
    (createZipFromFiles [c8item]).entries.length = 1 ∧
    ([c8item].filter (fun f => f.status = ConversionStatus.COMPLETED &&
      f.pdfBlob.isSome)).length = 0 := by
  decide

/-- C8 (amended): the Packager itself includes, under the single folder
`"converted_pdfs"`, exactly one entry per passed item with a PRESENT
artifact regardless of status (in order, named by stripping the display
name's extension and appending `.pdf`, artifact-less items silently
skipped, assuming the transformed names are distinct); name collisions
are not deduplicated — the stored entry for a name is the blob of the
LAST artifact-bearing item mapping to it; the status = Done restriction
is enforced by the caller: `handleDownloadZip` passes exactly the
Done-with-artifact items, so the saved archive has exactly one entry per
such item. -/
theorem c8_packager :
    (∀ files : List FileData,
      ((files.filter (fun f => f.pdfBlob.isSome)).map
        (fun f => pdfFileName f.file.name)).Nodup →
      (createZipFromFiles files).entries =
        files.filterMap (fun f => f.pdfBlob.map (fun b => (pdfFileName f.file.name, b))) ∧
      (createZipFromFiles files).name = "converted_pdfs") ∧
    (∀ (files : List FileData) (n : String),
      (createZipFromFiles files).entries.find? (fun e => e.1 = n) =
        ((files.filter (fun f => f.pdfBlob.isSome &&
          pdfFileName f.file.name = n)).getLast?).bind
          (fun f => f.pdfBlob.map (fun b => (n, b)))) ∧
    (∀ (files : List FileData) (nm : String) (z : ZipFolder),
      handleDownloadZip files = DownloadOutcome.saved nm z →
      nm = "converted_pdfs.zip" ∧
      z = createZipFromFiles (files.filter
        (fun f => f.status = ConversionStatus.COMPLETED && f.pdfBlob.isSome))) := by
  refine ⟨?_, createZipFromFiles_find, ?_⟩
  · intro files hnd
    constructor
    · unfold createZipFromFiles
      exact createZip_entries_aux files [] (by simpa using hnd)
    · rfl
  · intro files nm z h
    simp only [handleDownloadZip, handleDownloadZipWith] at h
    by_cases hlen : (files.filter (fun f => f.status = ConversionStatus.COMPLETED &&
        f.pdfBlob.isSome)).length = 0
    · rw [if_pos hlen] at h
      cases h
    · rw [if_neg hlen] at h
      injection h with h1 h2
      exact ⟨h1.symm, h2.symm⟩

/-- A completed item with an artifact, as the app passes to the Packager. -/
def c8wItem : FileData :=
  { id := 10, file := validJpeg "w.jpg", previewUrl := "blob:url",
    status := .COMPLETED, pdfBlob := some c8blob }

theorem c8_packager_witness :
    ((([c8wItem].filter (fun f => f.pdfBlob.isSome)).map
        (fun f => pdfFileName f.file.name)).Nodup ∧
      (createZipFromFiles [c8wItem]).entries =
        [c8wItem].filterMap (fun f => f.pdfBlob.map
          (fun b => (pdfFileName f.file.name, b))) ∧
      (createZipFromFiles [c8wItem]).name = "converted_pdfs") ∧
    ("converted_pdfs.zip" = "converted_pdfs.zip" ∧
      createZipFromFiles ([c8wItem].filter
        (fun f => f.status = ConversionStatus.COMPLETED && f.pdfBlob.isSome)) =
      createZipFromFiles ([c8wItem].filter
        (fun f => f.status = ConversionStatus.COMPLETED && f.pdfBlob.isSome))) :=
  ⟨⟨by decide, (c8_packager.1 [c8wItem] (by decide)).1, (c8_packager.1 [c8wItem] (by decide)).2⟩,
    c8_packager.2.2 [c8wItem] "converted_pdfs.zip"
      (createZipFromFiles ([c8wItem].filter
        (fun f => f.status = ConversionStatus.COMPLETED && f.pdfBlob.isSome))) rfl⟩

/-- A store whose only item is Failed: zero Done items. -/
def c9state : List FileData :=
  [{ id := 30, file := corruptJpeg "z.jpg", previewUrl := "blob:url",
     status := .ERROR, error := some "Failed to convert" }]

/-- C9 counterexample: with zero Done items the download handler returns
early (`noAction`) WITHOUT invoking the Packager — it neither fails with
`ArchiveError` nor yields an (empty) archive, refuting both arms of the
claimed disjunction. -/
theorem c9_empty_download_counterexample :
    handleDownloadZip c9state = DownloadOutcome.noAction := by
  decide

/-- C9 (amended): when a download is requested with zero Done-with-artifact
items, the handler returns without invoking the Packager — no error is
raised and no archive (not even an empty one) is produced; when the
Packager is invoked and fails, the failure is caught by the caller and
surfaced as a single alert, and no archive is saved (no partial archive is
produced). -/
theorem c9_empty_download (pack : List FileData → Except ArchiveError ZipFolder)
    (files : List FileData) :
    ((files.filter (fun f => f.status = ConversionStatus.COMPLETED &&
        f.pdfBlob.isSome)) = [] →
      handleDownloadZipWith pack files = DownloadOutcome.noAction) ∧
    (∀ e : ArchiveError,
      (files.filter (fun f => f.status = ConversionStatus.COMPLETED &&
        f.pdfBlob.isSome)) ≠ [] →
      pack (files.filter (fun f => f.status = ConversionStatus.COMPLETED &&
        f.pdfBlob.isSome)) = Except.error e →
      handleDownloadZipWith pack files =
        DownloadOutcome.alerted "Failed to create ZIP file.") := by
  constructor
  · intro h
    simp only [handleDownloadZipWith]
    rw [if_pos (by rw [h]; rfl)]
  · intro e hne hp
    simp only [handleDownloadZipWith]
    rw [if_neg (by
      intro hc
      exact hne (List.eq_nil_of_length_eq_zero hc))]
    rw [hp]

/-- A packager that always fails, and a store with one Done item. -/
def c9failPack : List FileData → Except ArchiveError ZipFolder :=
  fun _ => Except.error ArchiveError.generateFailure

def c9wItem : FileData :=
  { id := 31, file := validJpeg "ok.jpg", previewUrl := "blob:url",
    status := .COMPLETED, pdfBlob := some c8blob }

theorem c9_empty_download_witness :
    (handleDownloadZipWith c9failPack c9state = DownloadOutcome.noAction ∧
      (c9state.filter (fun f => f.status = ConversionStatus.COMPLETED &&
        f.pdfBlob.isSome)) = []) ∧
    (handleDownloadZipWith c9failPack [c9wItem] =
        DownloadOutcome.alerted "Failed to create ZIP file." ∧
      ([c9wItem].filter (fun f => f.status = ConversionStatus.COMPLETED &&
        f.pdfBlob.isSome)) ≠ [] ∧
      c9failPack ([c9wItem].filter (fun f => f.status = ConversionStatus.COMPLETED &&
        f.pdfBlob.isSome)) = Except.error ArchiveError.generateFailure) :=
  ⟨⟨(c9_empty_download c9failPack c9state).1 (by decide), by decide⟩,
    ⟨(c9_empty_download c9failPack [c9wItem]).2 ArchiveError.generateFailure
      (by decide) rfl, by decide, rfl⟩⟩

/-- C10: a run mutates only the items that were eligible (Idle or Failed)
when it started.  Formally, over a run during which `handleFilesAdded`
appends fresh items after the `k`-th wave (ids distinct store-wide): any
item that was NOT eligible at run start — in particular every Done item,
with its artifact — is present unchanged in every state of the run; and
every added item is still present unchanged (Idle, no artifact, no error)
in the final state, its id never being in the queue captured at run
start, so it is not converted by that run. -/
theorem c10_run_frame (startT endT : Nat) (s : AppState) (k : Nat)
    (newFiles : List (Nat × String × SourceFile))
    (hnd : ((s.files.map FileData.id) ++ newFiles.map (fun nf => nf.1)).Nodup) :
    (∀ fd ∈ s.files, isEligible fd = false →
      ∀ st ∈ (processQueueRunWithAdd startT endT s k newFiles).1, fd ∈ st.files) ∧
    (∀ nf ∈ newFiles,
      mkFileData nf ∈ (processQueueRunWithAdd startT endT s k newFiles).2.files ∧
      (mkFileData nf).status = ConversionStatus.IDLE ∧
      (mkFileData nf).pdfBlob = none ∧ (mkFileData nf).error = none ∧
      nf.1 ∉ (s.files.filter isEligible).map FileData.id) := by
  have hnds : (s.files.map FileData.id).Nodup := hnd.of_append_left
  have hdisj := List.disjoint_of_nodup_append hnd
  have hflat : (chunks BATCH_SIZE (s.files.filter isEligible)).flatten =
      s.files.filter isEligible := chunks_flatten BATCH_SIZE (by decide) _
  have hsplit : ((chunks BATCH_SIZE (s.files.filter isEligible)).take k).flatten ++
      ((chunks BATCH_SIZE (s.files.filter isEligible)).drop k).flatten =
      s.files.filter isEligible := by
    rw [← List.flatten_append, List.take_append_drop, hflat]
  have hqsub : ∀ i, i ∈ (s.files.filter isEligible).map FileData.id →
      i ∈ s.files.map FileData.id := by
    intro i hi
    obtain ⟨q, hq, hqi⟩ := List.mem_map.mp hi
    exact hqi ▸ List.mem_map_of_mem _ (List.mem_filter.mp hq).1
  have htakesub : ∀ i, i ∈ ((chunks BATCH_SIZE (s.files.filter isEligible)).take
      k).flatten.map FileData.id → i ∈ (s.files.filter isEligible).map FileData.id := by
    intro i hi
    obtain ⟨q, hq, hqi⟩ := List.mem_map.mp hi
    exact hqi ▸ List.mem_map_of_mem _ (by
      rw [← hsplit]
      exact List.mem_append_left _ hq)
  have hdropsub : ∀ i, i ∈ ((chunks BATCH_SIZE (s.files.filter isEligible)).drop
      k).flatten.map FileData.id → i ∈ (s.files.filter isEligible).map FileData.id := by
    intro i hi
    obtain ⟨q, hq, hqi⟩ := List.mem_map.mp hi
    exact hqi ▸ List.mem_map_of_mem _ (by
      rw [← hsplit]
      exact List.mem_append_right _ hq)
  constructor
  · intro fd hfd helig st hst
    have hnq : fd.id ∉ (s.files.filter isEligible).map FileData.id := by
      intro hc
      obtain ⟨q, hq, hqi⟩ := List.mem_map.mp hc
      have hqs := (List.mem_filter.mp hq).1
      have hqe := (List.mem_filter.mp hq).2
      have : q = fd := List.inj_on_of_nodup_map hnds hqs hfd hqi
      subst this
      rw [helig] at hqe
      cases hqe
    have hnidle : fd.status ≠ ConversionStatus.IDLE := by
      intro hc
      unfold isEligible at helig
      rw [hc] at helig
      simp at helig
    have hC : fd ∈ (queuedState (statsInitState startT (processingOnState s))).files := by
      rw [queuedState_files, statsInitState_files, processingOnState_files]
      exact mem_markIdleQueued_of_ne hfd hnidle
    have hf1 := wavesRun_frame ((chunks BATCH_SIZE (s.files.filter isEligible)).take k)
      (queuedState (statsInitState startT (processingOnState s))) fd hC
      (fun hc => hnq (htakesub _ hc))
    have hAdd : fd ∈ (addFilesState (wavesRun (queuedState (statsInitState startT
        (processingOnState s))) ((chunks BATCH_SIZE
        (s.files.filter isEligible)).take k)).2 newFiles).files :=
      List.mem_append_left _ hf1.1
    have hf2 := wavesRun_frame ((chunks BATCH_SIZE (s.files.filter isEligible)).drop k)
      _ fd hAdd (fun hc => hnq (hdropsub _ hc))
    simp only [processQueueRunWithAdd, List.mem_cons, List.mem_append,
      List.mem_singleton] at hst
    rcases hst with h | h | h | (h | h | h) | h | h | h
    · subst h; exact hfd
    · subst h; exact hfd
    · subst h; exact hC
    · exact hf1.2 st h
    · subst h; exact hAdd
    · exact hf2.2 st h
    · subst h; exact hf2.1
    · subst h; exact hf2.1
    · exact absurd h (List.not_mem_nil _)
  · intro nf hnf
    have hnq : nf.1 ∉ (s.files.filter isEligible).map FileData.id := by
      intro hc
      exact hdisj (hqsub _ hc) (List.mem_map_of_mem _ hnf)
    refine ⟨?_, rfl, rfl, rfl, hnq⟩
    have hAdd : mkFileData nf ∈ (addFilesState (wavesRun (queuedState (statsInitState startT
        (processingOnState s))) ((chunks BATCH_SIZE
        (s.files.filter isEligible)).take k)).2 newFiles).files :=
      List.mem_append_right _ (List.mem_map_of_mem _ hnf)
    have hf2 := wavesRun_frame ((chunks BATCH_SIZE (s.files.filter isEligible)).drop k)
      _ (mkFileData nf) hAdd (fun hc => hnq (hdropsub _ hc))
    exact hf2.1

/-- A store with one Done item (artifact present) and one Idle item, plus
one file dropped mid-run. -/
def c10state : AppState :=
  { files := [
      { id := 41, file := validJpeg "done.jpg", previewUrl := "blob:url",
        status := .COMPLETED, pdfBlob := some c8blob },
      idleItem 42 (validJpeg "todo.jpg")],
    stats := { total := 2, processed := 2, success := 2, failed := 0,
               startTime := some 0, endTime := some 0 },
    isProcessing := false }

def c10newFiles : List (Nat × String × SourceFile) :=
  [(43, "blob:new", validJpeg "late.jpg")]

def c10doneItem : FileData :=
  { id := 41, file := validJpeg "done.jpg", previewUrl := "blob:url",
    status := .COMPLETED, pdfBlob := some c8blob }

theorem c10_run_frame_witness :
    (((c10state.files.map FileData.id) ++
        c10newFiles.map (fun nf => nf.1)).Nodup ∧
      c10doneItem ∈ c10state.files ∧ isEligible c10doneItem = false ∧
      (43, "blob:new", validJpeg "late.jpg") ∈ c10newFiles) ∧
    (∀ st ∈ (processQueueRunWithAdd 0 0 c10state 1 c10newFiles).1,
      c10doneItem ∈ st.files) ∧
    (mkFileData (43, "blob:new", validJpeg "late.jpg") ∈
      (processQueueRunWithAdd 0 0 c10state 1 c10newFiles).2.files ∧
      (mkFileData (43, "blob:new", validJpeg "late.jpg")).status = ConversionStatus.IDLE ∧
      (mkFileData (43, "blob:new", validJpeg "late.jpg")).pdfBlob = none ∧
      (mkFileData (43, "blob:new", validJpeg "late.jpg")).error = none ∧
      (43 : Nat) ∉ (c10state.files.filter isEligible).map FileData.id) :=
  ⟨⟨by decide, by decide, by decide, by decide⟩,
    (c10_run_frame 0 0 c10state 1 c10newFiles (by decide)).1 c10doneItem
      (by decide) (by decide),
    (c10_run_frame 0 0 c10state 1 c10newFiles (by decide)).2
      (43, "blob:new", validJpeg "late.jpg") (by decide)⟩

end BatchSnap
